import Mathlib

/-!
Verification development for the getoffice-drone property-normalization and
extraction layer.

The Python sources embedded here are:
  * `src/api/utils/notion.py`  (free-function module; the default namespace below),
  * `src/utils/notion.py`      (class module `NotionUtils`; namespace `NotionUtils` below),
  * `src/api/core/context.py`  (the drone model/fleet-code splitter).

Modelling conventions:
  * Python values are the inductive `PyVal` (None, bool, int, str, list, dict,
    plus `date`/`datetime` objects needed by `format_br_date`).  A dict is an
    insertion-ordered association list; lookup takes the first matching key.
  * Operations that can raise in Python (attribute access such as `.get` on a
    non-dict, iteration of a non-iterable) run in `Except Unit`; `Except.error ()`
    models a raised exception, `Except.ok` a normal return.
  * Machine-independent standard-library behaviour is modelled explicitly:
    `unicodedata.normalize("NFKD", _)` by a finite decomposition table covering
    the Latin accented letters (all other characters decompose to themselves),
    `str.lower`/`str.strip`/regex character classes by their ASCII behaviour,
    and `datetime.fromisoformat` by a parser for the pre-3.11 strict ISO format
    (the code's `"Z" -> "+00:00"` replacement targets exactly that API).
  * The recursive simplifier uses explicit fuel (the structural size of the
    input); each
    recursive call descends strictly into the value, so the fuel of the wrapper
    is always sufficient and the fuel-exhaustion branch is unreachable from it.
-/

/-- Model of a Python `datetime.date` (year, month, day). -/
structure PyDate where
  year : Nat
  month : Nat
  day : Nat
deriving DecidableEq

/-- Model of a Python `datetime.time` (hour, minute, second, microsecond). -/
structure PyTime where
  hour : Nat
  minute : Nat
  second : Nat
  micro : Nat
deriving DecidableEq

/-- `datetime.min.time()`, i.e. midnight. -/
def midnightT : PyTime := ⟨0, 0, 0, 0⟩

/-- A Python runtime value as it appears in Notion property payloads. -/
inductive PyVal where
  | none
  | bool (b : Bool)
  | int (n : Int)
  | str (s : String)
  | list (xs : List PyVal)
  | dict (es : List (PyVal × PyVal))
  | pydate (d : PyDate)
  | pydt (d : PyDate) (t : PyTime)

/-- Python truthiness (`bool(v)`): None/False/0/""/empty containers are falsy;
date and datetime objects are always truthy. -/
def PyVal.truthy : PyVal → Bool
  | .none => false
  | .bool b => b
  | .int n => n != 0
  | .str s => s ≠ ""
  | .list xs => !xs.isEmpty
  | .dict es => !es.isEmpty
  | .pydate _ => true
  | .pydt _ _ => true

/-- `isinstance(v, Mapping)`. -/
def PyVal.isDict : PyVal → Bool
  | .dict _ => true
  | _ => false

/-- `isinstance(v, str)`. -/
def PyVal.isStr : PyVal → Bool
  | .str _ => true
  | _ => false

/-- `isinstance(v, datetime)`. -/
def PyVal.isDatetime : PyVal → Bool
  | .pydt _ _ => true
  | _ => false

/-- `isinstance(v, date)` for a value that is not a datetime. -/
def PyVal.isPureDate : PyVal → Bool
  | .pydate _ => true
  | _ => false

/-- `a or b` on Python values (returns `a` when truthy, else `b`). -/
def pyOr (a b : PyVal) : PyVal := if a.truthy then a else b

/-- Whether a dict key equals the string `s` (Python `==` between a key and a
string literal; keys of other types never compare equal to a string). -/
def keyMatches (k : PyVal) (s : String) : Bool :=
  match k with
  | .str t => t == s
  | _ => false

/-- First value bound to string key `s` in an association list, else `None`
(the default of `dict.get`). -/
def dictLookup (es : List (PyVal × PyVal)) (s : String) : PyVal :=
  match es with
  | [] => .none
  | (k, v) :: rest => if keyMatches k s then v else dictLookup rest s

/-- `v.get(s)`: `None`-defaulting lookup on a dict; on any non-dict this is an
attribute error (strings, lists, ints have no `.get`). -/
def PyVal.get (v : PyVal) (s : String) : Except Unit PyVal :=
  match v with
  | .dict es => .ok (dictLookup es s)
  | _ => .error ()

/-- `v.get(s, default)`. -/
def PyVal.getD (v : PyVal) (s : String) (dflt : PyVal) : Except Unit PyVal :=
  match v with
  | .dict es =>
    .ok (match es.find? (fun e => keyMatches e.1 s) with
         | Option.some e => e.2
         | Option.none => dflt)
  | _ => .error ()

/-- `s in v` for a dict (key containment); on a non-dict, non-iterable value
this raises, which callers below never trigger. -/
def PyVal.containsKey (v : PyVal) (s : String) : Except Unit Bool :=
  match v with
  | .dict es => .ok (es.any (fun e => keyMatches e.1 s))
  | _ => .error ()

/-- `iter(v)`: lists yield their elements, strings their characters (as
one-character strings), dicts their keys; other values raise `TypeError`. -/
def pyIter : PyVal → Except Unit (List PyVal)
  | .list xs => .ok xs
  | .str s => .ok (s.data.map (fun c => .str (String.singleton c)))
  | .dict es => .ok (es.map (fun e => e.1))
  | _ => .error ()

/-- `str(v)`.  Faithful for None/bool/int/str; the rendering of containers and
date objects is abbreviated (no claim below depends on it). -/
def pyStr : PyVal → String
  | .none => "None"
  | .bool b => if b then "True" else "False"
  | .int n => toString n
  | .str s => s
  | .list _ => "[...]"
  | .dict _ => "..."
  | .pydate _ => "date"
  | .pydt _ _ => "datetime"

/-!  Character-level string utilities (models of `str` methods and the regex
character classes used by `src/api/utils/notion.py` and `src/utils/notion.py`). -/

/-- Model of the regex class `\s` / `str.strip` whitespace (ASCII fragment). -/
def isPySpace (c : Char) : Bool :=
  c == ' ' || c == '\t' || c == '\n' || c == '\r' || c == Char.ofNat 11 || c == Char.ofNat 12

/-- `s.strip()` on a character list. -/
def pyStripL (l : List Char) : List Char :=
  ((l.dropWhile isPySpace).reverse.dropWhile isPySpace).reverse

/-- `s.strip()`. -/
def pyStripS (s : String) : String := String.mk (pyStripL s.data)

/-- Finite model of the NFKD decompositions relevant to this code base:
the precomposed Latin letters used in Portuguese property names decompose into
a base letter followed by a combining mark; every other character decomposes to
itself. -/
def nfkdTable : List (Char × List Char) :=
  let acute := Char.ofNat 0x301
  let grave := Char.ofNat 0x300
  let circ := Char.ofNat 0x302
  let tilde := Char.ofNat 0x303
  let diaer := Char.ofNat 0x308
  let cedil := Char.ofNat 0x327
  [ ('á', ['a', acute]), ('à', ['a', grave]), ('â', ['a', circ]), ('ã', ['a', tilde]), ('ä', ['a', diaer]),
    ('é', ['e', acute]), ('è', ['e', grave]), ('ê', ['e', circ]), ('ë', ['e', diaer]),
    ('í', ['i', acute]), ('ì', ['i', grave]), ('î', ['i', circ]), ('ï', ['i', diaer]),
    ('ó', ['o', acute]), ('ò', ['o', grave]), ('ô', ['o', circ]), ('õ', ['o', tilde]), ('ö', ['o', diaer]),
    ('ú', ['u', acute]), ('ù', ['u', grave]), ('û', ['u', circ]), ('ü', ['u', diaer]),
    ('ç', ['c', cedil]), ('ñ', ['n', tilde]),
    ('Á', ['A', acute]), ('À', ['A', grave]), ('Â', ['A', circ]), ('Ã', ['A', tilde]), ('Ä', ['A', diaer]),
    ('É', ['E', acute]), ('È', ['E', grave]), ('Ê', ['E', circ]), ('Ë', ['E', diaer]),
    ('Í', ['I', acute]), ('Ì', ['I', grave]), ('Î', ['I', circ]), ('Ï', ['I', diaer]),
    ('Ó', ['O', acute]), ('Ò', ['O', grave]), ('Ô', ['O', circ]), ('Õ', ['O', tilde]), ('Ö', ['O', diaer]),
    ('Ú', ['U', acute]), ('Ù', ['U', grave]), ('Û', ['U', circ]), ('Ü', ['U', diaer]),
    ('Ç', ['C', cedil]), ('Ñ', ['N', tilde]) ]

/-- NFKD decomposition of one character (see `nfkdTable`). -/
def nfkdChar (c : Char) : List Char :=
  match nfkdTable.find? (fun e => e.1 == c) with
  | Option.some e => e.2
  | Option.none => [c]

/-- `unicodedata.normalize("NFKD", s)` on a character list. -/
def nfkdL (l : List Char) : List Char := l.flatMap nfkdChar

/-- `unicodedata.combining(ch) != 0`: the combining marks produced by
`nfkdTable` all lie in the U+0300 – U+036F block. -/
def isCombining (c : Char) : Bool :=
  0x300 ≤ c.toNat && c.toNat ≤ 0x36F

/-- Characters kept verbatim by the strict normalization regex `[^a-z0-9\s]+`
(`a`-`z` is 97-122, `0`-`9` is 48-57). -/
def strictKeep (c : Char) : Bool :=
  (97 ≤ c.toNat && c.toNat ≤ 122) || (48 ≤ c.toNat && c.toNat ≤ 57) || isPySpace c

/-- One pass of `re.sub` replacing every maximal run of characters satisfying
`bad` with the single character `rep`.  The boolean argument records whether
the previous character was part of a run (Python's regex engine consumes a
whole run per match). -/
def runsAux (bad : Char → Bool) (rep : Char) : Bool → List Char → List Char
  | _, [] => []
  | inRun, c :: cs =>
    if bad c then
      if inRun then runsAux bad rep true cs
      else rep :: runsAux bad rep true cs
    else c :: runsAux bad rep false cs

/-- `re.sub(pattern-of-runs-of-bad, rep, s)`. -/
def runsToChar (bad : Char → Bool) (rep : Char) (l : List Char) : List Char :=
  runsAux bad rep false l

/-- `src/api/utils/notion.py:_normalize_prop_name_impl` /
`src/utils/notion.py:_normalize_prop_name_impl` (the two modules are textually
identical here): NFKD-decompose, drop combining marks, lowercase, replace runs
outside `[a-z0-9\s]` by one space, collapse whitespace runs, strip. -/
def _normalize_prop_name_impl (name : String) : String :=
  if name = "" then ""
  else
    let nfkd := nfkdL name.data
    let no_accents := nfkd.filter (fun c => !isCombining c)
    let lowered := no_accents.map Char.toLower
    let s1 := runsToChar (fun c => !strictKeep c) ' ' lowered
    let s2 := runsToChar isPySpace ' ' s1
    String.mk (pyStripL s2)

/-- `_normalize_property_name_flexible_impl` (identical in both modules):
like the strict form but characters outside `[a-z0-9\s]` are deleted outright,
then whitespace runs collapse to one space. -/
def _normalize_property_name_flexible_impl (name : String) : String :=
  if name = "" then ""
  else
    let nfkd := nfkdL name.data
    let no_accents := nfkd.filter (fun c => !isCombining c)
    let lowered := (no_accents.map Char.toLower)
    let stripped := pyStripL lowered
    let s1 := stripped.filter strictKeep
    let s2 := runsToChar isPySpace ' ' s1
    String.mk (pyStripL s2)

/-- `normalize_prop_name`: the cached wrapper is transparent for string inputs
(`name or ""` maps `""` to `""`, which the implementation already returns). -/
def normalize_prop_name (name : String) : String := _normalize_prop_name_impl name

/-- `normalize_property_name_flexible`, wrapper as above. -/
def normalize_property_name_flexible (name : String) : String :=
  _normalize_property_name_flexible_impl name

/-- `to_snake`: strict-normalize, then join words with `_`, collapse repeated
`_`, and strip `_` from both ends. -/
def to_snake (name : String) : String :=
  let n := normalize_prop_name name
  if n = "" then ""
  else
    let s1 := runsToChar isPySpace '_' n.data
    let s2 := runsToChar (fun c => c == '_') '_' s1
    String.mk ((s2.dropWhile (fun c => c == '_')).reverse.dropWhile (fun c => c == '_')).reverse

/-!  `src/api/utils/notion.py`: `normalize_properties`, `find_property_by_regex`. -/

/-- The accumulation loop of `normalize_properties`: skip non-string keys and
keys whose snake form is empty; bind each snake key only on first occurrence
(`if snake not in norm`). -/
def normPropsGo (acc : List (String × String × PyVal)) :
    List (PyVal × PyVal) → List (String × String × PyVal)
  | [] => acc
  | (k, v) :: rest =>
    match k with
    | .str ks =>
      let snake := to_snake ks
      if snake = "" then normPropsGo acc rest
      else if (acc.lookup snake).isSome then normPropsGo acc rest
      else normPropsGo (acc ++ [(snake, (ks, v))]) rest
    | _ => normPropsGo acc rest

/-- `normalize_properties` (identical in both modules): ordered mapping
`snake_name -> (original_key, original_value)`, first occurrence wins. -/
def normalize_properties (props : List (PyVal × PyVal)) : List (String × String × PyVal) :=
  normPropsGo [] props

/-- Loop of tier one of `find_property_by_regex`: scan the strict-normalized
snake keys, return the first stored value whose key matches. -/
def searchNorm (reg : String → Bool) : List (String × String × PyVal) → Option PyVal
  | [] => Option.none
  | (snake, _, val) :: rest => if reg snake then Option.some val else searchNorm reg rest

/-- Flexible-normalized form of a raw dict key, as computed inside the api
module's fallback loop: non-string keys make `unicodedata.normalize` raise,
which the `normalize_property_name_flexible` wrapper turns into `""`. -/
def flexKey : PyVal → String
  | .str s => normalize_property_name_flexible s
  | _ => ""

/-- Strict-normalized form of a raw dict key, as computed inside the class
module's fallback loop (same exception-to-`""` behaviour). -/
def strictKey : PyVal → String
  | .str s => normalize_prop_name s
  | _ => ""

/-- Loop of tier two of the api module's `find_property_by_regex`: scan raw
keys under flexible normalization. -/
def searchFlex (reg : String → Bool) : List (PyVal × PyVal) → Option PyVal
  | [] => Option.none
  | (k, v) :: rest => if reg (flexKey k) then Option.some v else searchFlex reg rest

/-- `src/api/utils/notion.py:find_property_by_regex`.  The `re` library is
abstracted by `compile`: `compile pattern = none` models `re.error`, and
`compile pattern = some reg` models a successfully compiled case-insensitive
pattern whose `reg.search(s)` test is the predicate `reg`. -/
def find_property_by_regex (compile : String → Option (String → Bool))
    (props : List (PyVal × PyVal)) (pattern : String) : Option PyVal :=
  if props.isEmpty || pattern = "" then Option.none
  else
    match compile pattern with
    | Option.none => Option.none
    | Option.some reg =>
      match searchNorm reg (normalize_properties props) with
      | Option.some val => Option.some val
      | Option.none => searchFlex reg props

/-!  `src/api/utils/notion.py`: per-type extractors, in `Except Unit` because
malformed nested payloads can raise `AttributeError`/`TypeError` in Python. -/

/-- Segment loop of `plain_text`: keep `plain_text` (or `text.content`) of
well-formed segments, stringified, skipping falsy results. -/
def ptLoop : List PyVal → Except Unit (List String)
  | [] => .ok []
  | seg :: rest =>
    match seg with
    | .dict _ => do
      let a ← seg.get "plain_text"
      let pt ←
        if a.truthy then pure a
        else do
          let tv ← seg.get "text"
          let b ← (pyOr tv (.dict [])).get "content"
          pure (if b.truthy then b else .str "")
      let parts ← ptLoop rest
      pure (if pt.truthy then pyStr pt :: parts else parts)
    | _ => ptLoop rest

/-- `plain_text`: concatenate the plain text of every mapping segment. -/
def plain_text (rich : PyVal) : Except Unit String :=
  if !rich.truthy then .ok ""
  else do
    let segs ← pyIter rich
    let parts ← ptLoop segs
    pure (String.join parts)

/-- `extract_title`. -/
def extract_title (prop : PyVal) : Except Unit PyVal := do
  let tv ← prop.get "title"
  let s ← plain_text (pyOr tv (.list []))
  pure (.str s)

/-- `extract_rich_text`. -/
def extract_rich_text (prop : PyVal) : Except Unit PyVal := do
  let tv ← prop.get "rich_text"
  let s ← plain_text (pyOr tv (.list []))
  pure (.str s)

/-- Loop of `extract_relation_ids`: collect `str(r["id"]).replace("-", "")`
for every mapping entry with a truthy id. -/
def relLoop : List PyVal → Except Unit (List PyVal)
  | [] => .ok []
  | r :: rest =>
    match r with
    | .dict _ => do
      let rid ← r.get "id"
      let tl ← relLoop rest
      pure (if rid.truthy then .str ((pyStr rid).replace "-" "") :: tl else tl)
    | _ => relLoop rest

/-- `extract_relation_ids`. -/
def extract_relation_ids (prop : PyVal) : Except Unit PyVal := do
  let rv ← prop.get "relation"
  let xs ← pyIter (pyOr rv (.list []))
  let ids ← relLoop xs
  pure (.list ids)

/-- Loop of `extract_files`: keep nested `file.url` / `external.url` values. -/
def filesLoop : List PyVal → Except Unit (List PyVal)
  | [] => .ok []
  | f :: rest =>
    match f with
    | .dict _ => do
      let ftype ← f.get "type"
      let tl ← filesLoop rest
      if keyMatches ftype "file" then do
        let fv ← f.get "file"
        let url ← (pyOr fv (.dict [])).get "url"
        pure (if url.truthy then url :: tl else tl)
      else if keyMatches ftype "external" then do
        let fv ← f.get "external"
        let url ← (pyOr fv (.dict [])).get "url"
        pure (if url.truthy then url :: tl else tl)
      else pure tl
    | _ => filesLoop rest

/-- `extract_files`. -/
def extract_files (prop : PyVal) : Except Unit PyVal := do
  let fv ← prop.get "files"
  let xs ← pyIter (pyOr fv (.list []))
  let urls ← filesLoop xs
  pure (.list urls)

/-- `_select_name`. -/
def _select_name (prop : PyVal) : Except Unit PyVal := do
  let sel ← prop.get "select"
  match sel with
  | .dict _ => sel.get "name"
  | _ => pure .none

/-- Loop of `_multi_select_names` (`s.get("name") is not None` keeps falsy
but non-None names such as `""`). -/
def msLoop : List PyVal → Except Unit (List PyVal)
  | [] => .ok []
  | s :: rest =>
    match s with
    | .dict _ => do
      let nm ← s.get "name"
      let tl ← msLoop rest
      pure (match nm with
            | .none => tl
            | other => other :: tl)
    | _ => msLoop rest

/-- `_multi_select_names`. -/
def _multi_select_names (prop : PyVal) : Except Unit PyVal := do
  let mv ← prop.get "multi_select"
  let xs ← pyIter (pyOr mv (.list []))
  let names ← msLoop xs
  pure (.list names)

/-- Loop of `_people_list`: for each mapping entry evaluate
`p.get("name") or (p.get("person") or {}).get("email") or p.get("id")`
(Python `or` is lazy, so the nested access only runs when the name is falsy). -/
def peopleLoop : List PyVal → Except Unit (List PyVal)
  | [] => .ok []
  | p :: rest =>
    match p with
    | .dict _ => do
      let name ← p.get "name"
      let entry ←
        if name.truthy then pure name
        else do
          let personv ← p.get "person"
          let email ← (pyOr personv (.dict [])).get "email"
          if email.truthy then pure email else p.get "id"
      let tl ← peopleLoop rest
      pure (entry :: tl)
    | _ => peopleLoop rest

/-- `_people_list`. -/
def _people_list (prop : PyVal) : Except Unit PyVal := do
  let pv ← prop.get "people"
  let xs ← pyIter (pyOr pv (.list []))
  let entries ← peopleLoop xs
  pure (.list entries)

/-- `src/api/utils/notion.py:extract_date`:
`(prop.get("date") or {}).get("start") or d.get("end")` — a scalar. -/
def extract_date (prop : PyVal) : Except Unit PyVal := do
  let dv ← prop.get "date"
  let d := pyOr dv (.dict [])
  let s ← d.get "start"
  if s.truthy then pure s else d.get "end"

/-- `extract_user`. -/
def extract_user (user : PyVal) : Except Unit PyVal := do
  let name ← user.get "name"
  if name.truthy then pure name
  else do
    let personv ← user.get "person"
    let email ← (pyOr personv (.dict [])).get "email"
    if email.truthy then pure email else user.get "id"

/-- `extract_formula`: re-dispatch on the formula's own type tag. -/
def extract_formula (prop : PyVal) : Except Unit PyVal := do
  let fv ← prop.get "formula"
  let formula := pyOr fv (.dict [])
  let ftype ← formula.get "type"
  if keyMatches ftype "string" then formula.get "string"
  else if keyMatches ftype "number" then formula.get "number"
  else if keyMatches ftype "boolean" then formula.get "boolean"
  else if keyMatches ftype "date" then extract_date formula
  else pure .none

/-- `_status_name`. -/
def _status_name (prop : PyVal) : Except Unit PyVal := do
  let s ← prop.get "status"
  match s with
  | .dict _ => s.get "name"
  | _ => pure .none

/-- `_created_by`. -/
def _created_by (prop : PyVal) : Except Unit PyVal := do
  let u ← prop.get "created_by"
  extract_user (pyOr u (.dict []))

/-- `_last_edited_by`. -/
def _last_edited_by (prop : PyVal) : Except Unit PyVal := do
  let u ← prop.get "last_edited_by"
  extract_user (pyOr u (.dict []))

/-- `_unique_id`. -/
def _unique_id (prop : PyVal) : Except Unit PyVal := do
  let uv ← prop.get "unique_id"
  let uid := pyOr uv (.dict [])
  let pfx ← uid.get "prefix"
  let number ← uid.get "number"
  match number with
  | .none => pure .none
  | n => pure (if pfx.truthy then .str (pyStr pfx ++ pyStr n) else .str (pyStr n))

/-- `_verification`. -/
def _verification (prop : PyVal) : Except Unit PyVal := do
  let vv ← prop.get "verification"
  let ver := pyOr vv (.dict [])
  let st ← ver.get "state"
  pure (pyOr st ver)

/-!  `src/api/utils/notion.py`: `extract_rollup`, `simplify_property`,
`simplify_properties_map`.  `simplify_property` and `extract_rollup` are
mutually recursive in the source; here the recursion is driven by explicit
fuel (`sizeOf` of the property), which strictly exceeds the recursion depth
because every recursive call descends into a strict subvalue. -/

/-- Accumulation loop of the array branch of `extract_rollup`, parameterized by
the recursive simplifier: simplify each item (non-mappings as `{}` — written
`.dict []`), skip `None` and `""` results, extend with list results, append
scalars. -/
def rollupAccumW (sim : PyVal → Except Unit PyVal) (acc : List PyVal) :
    List PyVal → Except Unit (List PyVal)
  | [] => .ok acc
  | item :: rest => do
    let v ← sim (if item.isDict then item else .dict [])
    let acc' :=
      match v with
      | .none => acc
      | .str "" => acc
      | .list ys => acc ++ ys
      | other => acc ++ [other]
    rollupAccumW sim acc' rest

/-- Scalar fallback of `extract_rollup`: first of the `number`/`date`/
`string`/`boolean` keys present in the rollup payload, else `None`. -/
def rollupScalar (roll : PyVal) : Except Unit PyVal := do
  if (← roll.containsKey "number") then roll.get "number"
  else if (← roll.containsKey "date") then roll.get "date"
  else if (← roll.containsKey "string") then roll.get "string"
  else if (← roll.containsKey "boolean") then roll.get "boolean"
  else pure .none

/-- Body of `src/api/utils/notion.py:extract_rollup`, with the recursive call
to `simplify_property` abstracted as `sim`. -/
def extractRollupWith (sim : PyVal → Except Unit PyVal) (prop : PyVal) :
    Except Unit PyVal := do
  let rollv ← prop.get "rollup"
  let roll := pyOr rollv (.dict [])
  let rtype ← roll.get "type"
  if keyMatches rtype "array" then do
    let av ← roll.get "array"
    let arrv := pyOr av (.list [])
    let xs ← pyIter arrv
    let values ← rollupAccumW sim [] xs
    pure (match values with
          | [] => .none
          | [x] => x
          | l => .list l)
  else rollupScalar roll

/-- One dispatch step of `simplify_property` (`_PROPERTY_EXTRACTORS`), with the
recursive simplifier used by the rollup branch abstracted as `sim`. -/
def simplifyStep (sim : PyVal → Except Unit PyVal) (prop : PyVal) :
    Except Unit PyVal :=
  if !prop.isDict then .ok .none
  else do
    let ptype ← prop.get "type"
    match ptype with
    | .str tag =>
      if tag = "rollup" then extractRollupWith sim prop
      else if tag = "title" then extract_title prop
      else if tag = "rich_text" then extract_rich_text prop
      else if tag = "number" then prop.get "number"
      else if tag = "select" then _select_name prop
      else if tag = "multi_select" then _multi_select_names prop
      else if tag = "relation" then extract_relation_ids prop
      else if tag = "people" then _people_list prop
      else if tag = "date" then extract_date prop
      else if tag = "checkbox" then prop.get "checkbox"
      else if tag = "url" then prop.get "url"
      else if tag = "email" then prop.get "email"
      else if tag = "phone_number" then prop.get "phone_number"
      else if tag = "status" then _status_name prop
      else if tag = "files" then extract_files prop
      else if tag = "formula" then extract_formula prop
      else if tag = "created_by" then _created_by prop
      else if tag = "last_edited_by" then _last_edited_by prop
      else if tag = "created_time" then prop.get "created_time"
      else if tag = "last_edited_time" then prop.get "last_edited_time"
      else if tag = "unique_id" then _unique_id prop
      else if tag = "verification" then _verification prop
      else .ok .none
    | _ => .ok .none

mutual
/-- Structural size of a value, used as fuel for the recursive simplifier. -/
def PyVal.size : PyVal → Nat
  | .none => 1
  | .bool _ => 1
  | .int _ => 1
  | .str _ => 1
  | .pydate _ => 1
  | .pydt _ _ => 1
  | .list xs => 1 + sizeLP xs
  | .dict es => 1 + sizeEP es
def sizeLP : List PyVal → Nat
  | [] => 0
  | x :: xs => 1 + PyVal.size x + sizeLP xs
def sizeEP : List (PyVal × PyVal) → Nat
  | [] => 0
  | (k, v) :: es => 1 + PyVal.size k + PyVal.size v + sizeEP es
end

/-- Fueled `simplify_property`; the fuel-exhaustion branch is unreachable when
started with fuel `PyVal.size prop` (see the module docstring). -/
def simplifyPropertyF : Nat → PyVal → Except Unit PyVal
  | 0, _ => .error ()
  | fuel + 1, prop => simplifyStep (simplifyPropertyF fuel) prop

/-- `src/api/utils/notion.py:simplify_property`. -/
def simplify_property (prop : PyVal) : Except Unit PyVal :=
  simplifyPropertyF prop.size prop

/-- `src/api/utils/notion.py:extract_rollup`. -/
def extract_rollup (prop : PyVal) : Except Unit PyVal :=
  extractRollupWith simplify_property prop

/-- Loop of `simplify_properties_map` over the normalized mapping: simplify
every stored raw value, substituting a typeless stub for non-mapping values. -/
def simpMapGo : List (String × String × PyVal) → Except Unit (List (String × PyVal))
  | [] => .ok []
  | (snake, _orig, raw) :: rest => do
    let sv ← simplify_property (if raw.isDict then raw else .dict [(.str "type", .none)])
    let tl ← simpMapGo rest
    pure ((snake, sv) :: tl)

/-- `src/api/utils/notion.py:simplify_properties_map`. -/
def simplify_properties_map (props : List (PyVal × PyVal)) :
    Except Unit (List (String × PyVal)) :=
  simpMapGo (normalize_properties props)

/-!  `src/utils/notion.py` (class `NotionUtils`).  Its `_normalize_prop_name_impl`,
`_normalize_property_name_flexible_impl`, `normalize_prop_name`, `to_snake`,
`normalize_properties`, `plain_text`, `extract_title`, `extract_rich_text`,
`extract_relation_ids` and `extract_files` are textually identical to the
free-function module and are shared with the definitions above; only the
diverging members are embedded separately here. -/

namespace NotionUtils

/-- Relation sub-branch of the class module's rollup array loop:
`[r.get("id", "").replace("-", "") for r in rels if r.get("id")]`
(`.replace` is a `str` method, so a truthy non-string id raises). -/
def rollupRelLoop : List PyVal → Except Unit (List PyVal)
  | [] => .ok []
  | r :: rest =>
    match r with
    | .dict es => do
      let rid := dictLookup es "id"
      let tl ← rollupRelLoop rest
      if rid.truthy then
        match rid with
        | .str s => pure (.str (s.replace "-" "") :: tl)
        | _ => .error ()
      else pure tl
    | _ => .error ()

/-- Generic sub-branch of the class module's rollup array loop: scrape
`plain_text` fields out of any list-valued entry of the item. -/
def scrapeSegs : List PyVal → List PyVal
  | [] => []
  | seg :: rest =>
    match seg with
    | .dict es =>
      let pt := dictLookup es "plain_text"
      if pt.truthy then pt :: scrapeSegs rest else scrapeSegs rest
    | _ => scrapeSegs rest

/-- Scan the values of a rollup array item for list-valued entries. -/
def scrapeVals : List PyVal → List PyVal
  | [] => []
  | v :: rest =>
    match v with
    | .list segs => scrapeSegs segs ++ scrapeVals rest
    | _ => scrapeVals rest

/-- Array-item loop of the class module's `extract_rollup`: type-aware
per-element handling instead of recursive simplification. -/
def rollupItemLoop : List PyVal → Except Unit (List PyVal)
  | [] => .ok []
  | item :: rest =>
    match item with
    | .dict es => do
      let itype := dictLookup es "type"
      if keyMatches itype "rich_text" || keyMatches itype "title" then do
        let key := match itype with | .str s => s | _ => ""
        let s ← plain_text (pyOr (dictLookup es key) (.list []))
        let tl ← rollupItemLoop rest
        pure (.str s :: tl)
      else if keyMatches itype "number" then do
        let tl ← rollupItemLoop rest
        pure (dictLookup es "number" :: tl)
      else if keyMatches itype "relation" then do
        let rels ← pyIter (pyOr (dictLookup es "relation") (.list []))
        let ids ← rollupRelLoop rels
        let tl ← rollupItemLoop rest
        pure (ids ++ tl)
      else do
        let tl ← rollupItemLoop rest
        pure (scrapeVals (es.map (fun e => e.2)) ++ tl)
    | _ => rollupItemLoop rest

/-- `src/utils/notion.py:NotionUtils.extract_rollup`. -/
def extract_rollup (prop : PyVal) : Except Unit PyVal := do
  let rollv ← prop.get "rollup"
  let roll := pyOr rollv (.dict [])
  let rtype ← roll.get "type"
  if keyMatches rtype "array" then do
    let av ← roll.get "array"
    let xs ← pyIter (pyOr av (.list []))
    let values ← rollupItemLoop xs
    pure (match values with
          | [] => .none
          | [x] => x
          | l => .list l)
  else rollupScalar roll

/-- `src/utils/notion.py:NotionUtils.extract_date`: always a
`start`/`end` pair. -/
def extract_date (prop : PyVal) : Except Unit PyVal := do
  let dv ← prop.get "date"
  let d := pyOr dv (.dict [])
  let s ← d.get "start"
  let e ← d.get "end"
  pure (.dict [(.str "start", s), (.str "end", e)])

/-- People branch of the class module's `simplify_property`:
`[p.get("name") for p in ... if isinstance(p, Mapping) and p.get("name") is not None]`
— entries without a display name are dropped. -/
def peopleNamesLoop : List PyVal → List PyVal
  | [] => []
  | p :: rest =>
    match p with
    | .dict es =>
      match dictLookup es "name" with
      | .none => peopleNamesLoop rest
      | nm => nm :: peopleNamesLoop rest
    | _ => peopleNamesLoop rest

/-- `src/utils/notion.py:NotionUtils.simplify_property` (if-chain dispatch;
no formula/created_by/timestamps/unique_id/verification branches). -/
def simplify_property (prop : PyVal) : Except Unit PyVal :=
  if !prop.isDict then .ok .none
  else do
    let ptype ← prop.get "type"
    match ptype with
    | .str tag =>
      if tag = "rollup" then extract_rollup prop
      else if tag = "title" then extract_title prop
      else if tag = "rich_text" then extract_rich_text prop
      else if tag = "number" then prop.get "number"
      else if tag = "select" then _select_name prop
      else if tag = "multi_select" then _multi_select_names prop
      else if tag = "relation" then extract_relation_ids prop
      else if tag = "people" then do
        let pv ← prop.get "people"
        let xs ← pyIter (pyOr pv (.list []))
        pure (.list (peopleNamesLoop xs))
      else if tag = "date" then extract_date prop
      else if tag = "checkbox" then prop.get "checkbox"
      else if tag = "url" then prop.get "url"
      else if tag = "email" then prop.get "email"
      else if tag = "phone_number" then prop.get "phone_number"
      else if tag = "status" then _status_name prop
      else if tag = "files" then extract_files prop
      else .ok .none
    | _ => .ok .none

/-- Tier-two loop of the class module's `find_property_by_regex`: unlike the
api module it re-applies the *strict* normalizer to the raw keys. -/
def searchStrict (reg : String → Bool) : List (PyVal × PyVal) → Option PyVal
  | [] => Option.none
  | (k, v) :: rest => if reg (strictKey k) then Option.some v else searchStrict reg rest

/-- `src/utils/notion.py:NotionUtils.find_property_by_regex`. -/
def find_property_by_regex (compile : String → Option (String → Bool))
    (props : List (PyVal × PyVal)) (pattern : String) : Option PyVal :=
  if props.isEmpty || pattern = "" then Option.none
  else
    match compile pattern with
    | Option.none => Option.none
    | Option.some reg =>
      match searchNorm reg (normalize_properties props) with
      | Option.some val => Option.some val
      | Option.none => searchStrict reg props

end NotionUtils

/-!  `src/api/utils/notion.py`: `_string_contains_time`, `format_br_date`,
together with a model of `datetime.fromisoformat` / `date.fromisoformat` in
their pre-3.11 strict form (the code normalizes `"Z"` to `"+00:00"` before
parsing, which is exactly the workaround those versions need). -/

/-- `re.search(r"\d{2}:\d{2}", s)`: some position holds two digits, a colon
and two more digits. -/
def containsHHMM : List Char → Bool
  | a :: b :: c :: d :: e :: rest =>
    (a.isDigit && b.isDigit && c == ':' && d.isDigit && e.isDigit)
      || containsHHMM (b :: c :: d :: e :: rest)
  | _ => false

/-- `src/api/utils/notion.py:_string_contains_time` (string case; the guard on
non-strings is handled at the call sites, which always pass strings). -/
def _string_contains_time (s : String) : Bool :=
  if s = "" then false else containsHHMM s.data

/-- `s.replace("Z", "+00:00")` on a character list. -/
def replaceZ : List Char → List Char
  | [] => []
  | c :: cs =>
    if c == 'Z' then '+' :: '0' :: '0' :: ':' :: '0' :: '0' :: replaceZ cs
    else c :: replaceZ cs

/-- `s.replace("Z", "+00:00")`. -/
def replaceZS (s : String) : String := String.mk (replaceZ s.data)

/-- Numeric value of two decimal digit characters. -/
def twoDigits (a b : Char) : Nat := (a.toNat - 48) * 10 + (b.toNat - 48)

/-- Days in a month, with the Gregorian leap rule (as validated by
`datetime.date`). -/
def daysInMonth (y m : Nat) : Nat :=
  if m = 2 then
    if y % 4 = 0 && (y % 100 ≠ 0 || y % 400 = 0) then 29 else 28
  else if m = 4 || m = 6 || m = 9 || m = 11 then 30
  else 31

/-- Parse the mandatory leading `YYYY-MM-DD` (with `datetime.date`'s range
validation) and return it with the unconsumed remainder. -/
def parseIsoDate : List Char → Option (PyDate × List Char)
  | y1 :: y2 :: y3 :: y4 :: d1 :: m1 :: m2 :: d2 :: dd1 :: dd2 :: rest =>
    if y1.isDigit && y2.isDigit && y3.isDigit && y4.isDigit && d1 == '-'
        && m1.isDigit && m2.isDigit && d2 == '-' && dd1.isDigit && dd2.isDigit then
      let y := twoDigits y1 y2 * 100 + twoDigits y3 y4
      let m := twoDigits m1 m2
      let d := twoDigits dd1 dd2
      if 1 ≤ y && 1 ≤ m && m ≤ 12 && 1 ≤ d && d ≤ daysInMonth y m then
        Option.some (⟨y, m, d⟩, rest)
      else Option.none
    else Option.none
  | _ => Option.none

/-- `date.fromisoformat`: exactly `YYYY-MM-DD`. -/
def dateFromIso (s : String) : Option PyDate :=
  match parseIsoDate s.data with
  | Option.some (d, []) => Option.some d
  | _ => Option.none

/-- Model of CPython's `_parse_hh_mm_ss_ff`: `HH[:MM[:SS[.fff|.ffffff]]]`,
with the hour/minute/second ranges checked as the `datetime` constructor does. -/
def parseHMSF (l : List Char) : Option PyTime :=
  match l with
  | [h1, h2] =>
    if h1.isDigit && h2.isDigit && twoDigits h1 h2 ≤ 23 then
      Option.some ⟨twoDigits h1 h2, 0, 0, 0⟩
    else Option.none
  | [h1, h2, c1, m1, m2] =>
    if h1.isDigit && h2.isDigit && c1 == ':' && m1.isDigit && m2.isDigit
        && twoDigits h1 h2 ≤ 23 && twoDigits m1 m2 ≤ 59 then
      Option.some ⟨twoDigits h1 h2, twoDigits m1 m2, 0, 0⟩
    else Option.none
  | h1 :: h2 :: c1 :: m1 :: m2 :: c2 :: s1 :: s2 :: rest =>
    if h1.isDigit && h2.isDigit && c1 == ':' && m1.isDigit && m2.isDigit && c2 == ':'
        && s1.isDigit && s2.isDigit
        && twoDigits h1 h2 ≤ 23 && twoDigits m1 m2 ≤ 59 && twoDigits s1 s2 ≤ 59 then
      match rest with
      | [] => Option.some ⟨twoDigits h1 h2, twoDigits m1 m2, twoDigits s1 s2, 0⟩
      | '.' :: frac =>
        if (frac.length = 3 || frac.length = 6) && frac.all Char.isDigit then
          let us := frac.foldl (fun acc c => acc * 10 + (c.toNat - 48)) 0
          let us := if frac.length = 3 then us * 1000 else us
          Option.some ⟨twoDigits h1 h2, twoDigits m1 m2, twoDigits s1 s2, us⟩
        else Option.none
      | _ => Option.none
    else Option.none
  | _ => Option.none

/-- Time-plus-offset part of `datetime.fromisoformat`: an optional `+`/`-`
splits time of day from a `HH:MM[:SS]` offset (only the time of day is kept —
`strftime` below never uses the offset). -/
def parseIsoTimeTz (l : List Char) : Option PyTime :=
  match l.findIdx? (fun c => c == '+' || c == '-') with
  | Option.none => parseHMSF l
  | Option.some i =>
    match parseHMSF (l.take i) with
    | Option.none => Option.none
    | Option.some t =>
      let tz := l.drop (i + 1)
      match tz with
      | [h1, h2, c1, m1, m2] =>
        if h1.isDigit && h2.isDigit && c1 == ':' && m1.isDigit && m2.isDigit
            && twoDigits h1 h2 ≤ 23 && twoDigits m1 m2 ≤ 59 then Option.some t
        else Option.none
      | [h1, h2, c1, m1, m2, c2, s1, s2] =>
        if h1.isDigit && h2.isDigit && c1 == ':' && m1.isDigit && m2.isDigit && c2 == ':'
            && s1.isDigit && s2.isDigit
            && twoDigits h1 h2 ≤ 23 && twoDigits m1 m2 ≤ 59 && twoDigits s1 s2 ≤ 59 then
          Option.some t
        else Option.none
      | _ => Option.none

/-- `datetime.fromisoformat` (pre-3.11 strict form): `YYYY-MM-DD`, optionally
followed by one separator character and a time (with optional fraction and
offset). -/
def dtFromIso (s : String) : Option (PyDate × PyTime) :=
  match parseIsoDate s.data with
  | Option.some (d, []) => Option.some (d, midnightT)
  | Option.some (d, _sep :: tstr) =>
    match parseIsoTimeTz tstr with
    | Option.some t => Option.some (d, t)
    | Option.none => Option.none
  | Option.none => Option.none

/-- Zero-padded two-digit rendering. -/
def pad2 (n : Nat) : String := (if n < 10 then "0" else "") ++ toString n

/-- `strftime("%d/%m/%Y")`. -/
def fmtBrDate (d : PyDate) : String :=
  pad2 d.day ++ "/" ++ pad2 d.month ++ "/" ++ toString d.year

/-- `strftime("%H:%M:%S")`. -/
def fmtBrTime (t : PyTime) : String :=
  pad2 t.hour ++ ":" ++ pad2 t.minute ++ ":" ++ pad2 t.second

/-- `src/api/utils/notion.py:format_br_date`. -/
def format_br_date (value : PyVal) : PyVal :=
  match value with
  | .pydt d t =>
    if t = midnightT then .str (fmtBrDate d)
    else .str (fmtBrDate d ++ " " ++ fmtBrTime t)
  | .pydate d => .str (fmtBrDate d)
  | .str v =>
    let s := pyStripS v
    if s = "" then .str ""
    else
      let iso := replaceZS s
      match dtFromIso iso with
      | Option.some (d, t) =>
        if _string_contains_time s || t ≠ midnightT then
          .str (fmtBrDate d ++ " " ++ fmtBrTime t)
        else .str (fmtBrDate d)
      | Option.none =>
        if _string_contains_time s then .str s
        else
          match dateFromIso s with
          | Option.some d => .str (fmtBrDate d)
          | Option.none => .str s
  | _ => .str ""

/-!  `src/api/core/context.py`: `Drone._split_model_prefix`.  (The Lean name
drops the final source word because of lexical restrictions; `Pfx` stands for
the fleet code extracted alongside the model.)  The small regexes of the
source (`\bps\b`, `[-–—]`, `\d+`, `^\s*[-–—]`, `[-–—]\s*$`) are modelled
directly on character lists; `\w` is modelled by ASCII alphanumerics plus
underscore. -/

/-- Model of the regex class `\w` (ASCII fragment). -/
def isWordChar (c : Char) : Bool := c.isAlphanum || c == '_'

/-- The dash class `[-–—]` (hyphen, en dash, em dash). -/
def isDash (c : Char) : Bool := c == '-' || c == '–' || c == '—'

/-- Whether a standalone, case-insensitive `ps` token (`\bps\b`) starts at
index `i`. -/
def psBoundaryAt (l : List Char) (i : Nat) : Bool :=
  (match l.get? i with
   | Option.some c => c == 'p' || c == 'P'
   | Option.none => false) &&
  (match l.get? (i + 1) with
   | Option.some c => c == 's' || c == 'S'
   | Option.none => false) &&
  (match i with
   | 0 => true
   | j + 1 =>
     match l.get? j with
     | Option.some c => !isWordChar c
     | Option.none => true) &&
  (match l.get? (i + 2) with
   | Option.some c => !isWordChar c
   | Option.none => true)

/-- `re.search(r"\bps\b", value, re.IGNORECASE)`: index of the leftmost match. -/
def findPs (l : List Char) : Option Nat :=
  (List.range l.length).find? (fun i => psBoundaryAt l i)

/-- `re.sub(r"[-–—]\s*$", "", s)`: drop one trailing dash (and any whitespace
after it); no match leaves the string unchanged. -/
def subTrailingDash (l : List Char) : List Char :=
  match l.reverse.dropWhile isPySpace with
  | c :: rest => if isDash c then rest.reverse else l
  | [] => l

/-- `re.sub(r"^\s*[-–—]", "", s)`: drop one leading dash (and any whitespace
before it). -/
def subLeadingDash (l : List Char) : List Char :=
  match l.dropWhile isPySpace with
  | c :: rest => if isDash c then rest else l
  | [] => l

/-- `re.search(r"(\d+)", s)`: the leftmost maximal run of digits. -/
def firstDigitRun : List Char → Option (List Char)
  | [] => Option.none
  | c :: cs =>
    if c.isDigit then Option.some (c :: cs.takeWhile Char.isDigit)
    else firstDigitRun cs

/-- `re.split(r"[-–—]", s)` on a character list. -/
def splitDashes : List Char → List (List Char)
  | [] => [[]]
  | c :: cs =>
    if isDash c then [] :: splitDashes cs
    else
      match splitDashes cs with
      | g :: gs => (c :: g) :: gs
      | [] => [[c]]

/-- `p.lower().startswith("ps")`. -/
def lowerStartsPs (p : String) : Bool :=
  match p.data.map Char.toLower with
  | 'p' :: 's' :: _ => true
  | _ => false

/-- `re.fullmatch(r"\d+", p)`. -/
def allDigits (p : String) : Bool := p ≠ "" && p.data.all Char.isDigit

/-- One step of the fallback loop of `_split_model_prefix`: an all-digit
segment overwrites the fleet code; a segment starting with `ps` contributes
its digits (and is dropped from the model either way); anything else joins
the model parts. -/
def dashStep (acc : List String × Option String) (p : String) :
    List String × Option String :=
  if allDigits p then (acc.1, Option.some p)
  else if lowerStartsPs p then
    match firstDigitRun p.data with
    | Option.some ds => (acc.1, Option.some (String.mk ds))
    | Option.none => acc
  else (acc.1 ++ [p], acc.2)

/-- `Drone._split_model_prefix` (returns the model and the optional fleet
code). -/
def splitModelPfx (value : String) : String × Option String :=
  match findPs value.data with
  | Option.some i =>
    let left0 := pyStripS (String.mk (value.data.take i))
    let left := pyStripS (String.mk (subTrailingDash left0.data))
    let right0 := pyStripS (String.mk (value.data.drop (i + 2)))
    let right := pyStripS (String.mk (subLeadingDash right0.data))
    let pfx :=
      match firstDigitRun right.data with
      | Option.some ds => Option.some (String.mk ds)
      | Option.none => if right = "" then Option.none else Option.some right
    ((if left = "" then value else left), pfx)
  | Option.none =>
    let parts := ((splitDashes value.data).map (fun l => pyStripS (String.mk l))).filter
      (fun p => p ≠ "")
    let res := parts.foldl dashStep ([], Option.none)
    let model :=
      if res.1 ≠ [] then pyStripS (String.intercalate " - " res.1)
      else
        match parts with
        | p :: _ => p
        | [] => value
    (model, res.2)

/-!  Concrete fixtures used by the claim theorems below. -/

/-- A property map whose single property is a `date` whose nested payload is a
truthy non-mapping (`"oops"`), i.e. a malformed nested shape. -/
def c1props : List (PyVal × PyVal) :=
  [(.str "D", .dict [(.str "type", .str "date"), (.str "date", .str "oops")])]

/-- Rollup array payload whose three elements simplify to `""`, `"Z"` and
`None` respectively. -/
def c3roll : PyVal :=
  .dict [(.str "type", .str "array"),
    (.str "array", .list [
      .dict [(.str "type", .str "rich_text"), (.str "rich_text", .list [])],
      .dict [(.str "type", .str "rich_text"),
             (.str "rich_text", .list [.dict [(.str "plain_text", .str "Z")]])],
      .dict []])]

/-- Rollup property wrapping `c3roll`. -/
def c3prop : PyVal := .dict [(.str "rollup", c3roll)]

/-- The same rollup as a full tagged property. -/
def c3tagged : PyVal := .dict [(.str "type", .str "rollup"), (.str "rollup", c3roll)]

/-- A people property whose only person has an id but no display name. -/
def c4prop : PyVal :=
  .dict [(.str "type", .str "people"),
         (.str "people", .list [.dict [(.str "id", .str "u1")]])]

/-- Substring test used to model compiled literal patterns (a pattern without
metacharacters compiled with `re.IGNORECASE` and searched in an
already-lowercase string is exactly a substring test). -/
def containsSub (needle : List Char) : List Char → Bool
  | [] => needle.isEmpty
  | c :: tl => needle.isPrefixOf (c :: tl) || containsSub needle tl

/-- Model of `re.compile` restricted to literal lowercase patterns. -/
def literalCompile : String → Option (String → Bool) :=
  fun p => Option.some (fun s => containsSub p.data s.data)

/-- A single-key map whose flexible normalization (`areaha`) differs from its
strict normalization (`area ha` / `area_ha`). -/
def c5props : List (PyVal × PyVal) := [(.str "Área(ha)", .int 7)]

/-- A date property with a start and no end. -/
def c6prop : PyVal :=
  .dict [(.str "date", .dict [(.str "start", .str "2024-01-01"), (.str "end", .none)])]

/-- Two raw keys that collide on the canonical key `nome_do_piloto`. -/
def c2props : List (PyVal × PyVal) :=
  [(.str "Nome do Piloto", .int 1), (.str "nome_do_piloto", .int 2)]

/-- The loop step of the api rollup accumulation, named for reuse in the
claim statements: drop `None` and `""`, flatten lists, append scalars. -/
def rollupStep (acc : List PyVal) (v : PyVal) : List PyVal :=
  match v with
  | .none => acc
  | .str "" => acc
  | .list ys => acc ++ ys
  | other => acc ++ [other]

/-- Collapse of the collected rollup values: nothing yields `None`, a
singleton is unwrapped, anything longer stays a list. -/
def rollupCollapse (values : List PyVal) : PyVal :=
  match values with
  | [] => .none
  | [x] => x
  | l => .list l

/-- The entry the C4 claim describes for one person object: the display name
when truthy, else the email nested under the person sub-object, else the id. -/
def personEntry (pes : List (PyVal × PyVal)) : PyVal :=
  let name := dictLookup pes "name"
  if name.truthy then name
  else
    let email :=
      match pyOr (dictLookup pes "person") (.dict []) with
      | .dict ses => dictLookup ses "email"
      | _ => .none
    if email.truthy then email else dictLookup pes "id"

/-- Well-shapedness of one person object: its `person` sub-entry is a mapping
or falsy (the condition under which Python's nested access cannot raise). -/
def personShaped : PyVal → Prop
  | .dict pes => (pyOr (dictLookup pes "person") (.dict [])).isDict = true
  | _ => True

/-- Characters of a fully normalized name: lowercase ASCII letters, digits,
or the plain space. -/
def azSpaceB (c : Char) : Bool :=
  (97 ≤ c.toNat && c.toNat ≤ 122) || (48 ≤ c.toNat && c.toNat ≤ 57) || c == ' '

/-!  Claim theorems.  Each claim of the specification audit has exactly one
theorem (plus, where needed, a counterexample refuting the claim as stated
and a witness instantiating the theorem's hypotheses). -/

/-- Claim C1: the claim says `simplify_properties_map` never raises, even for
malformed nested payload shapes.  The code violates this (and the guarantee
stated in the spec and in the class module's own docstring): a `date` property
whose `date` payload is the truthy non-mapping `"oops"` reaches
`"oops".get("start")`, an `AttributeError`.  This theorem evaluates the
embedded code at that failing input: the whole mapping raises. -/
theorem c1_simplify_properties_map_raises_on_malformed_date :
    simplify_properties_map c1props = .error () := rfl

/-- Claim C10: `format_br_date` returns the empty string on every value that
is neither a `date`, a `datetime`, nor a string. -/
theorem c10_format_br_date_other_types_empty (v : PyVal)
    (h1 : v.isStr = false) (h2 : v.isDatetime = false) (h3 : v.isPureDate = false) :
    format_br_date v = .str "" := by
  cases v <;> simp_all [format_br_date, PyVal.isStr, PyVal.isDatetime, PyVal.isPureDate]

/-- Witness for C10 at the concrete input `None` (produced by a missing
canonical key). -/
theorem c10_format_br_date_other_types_empty_witness :
    PyVal.none.isStr = false ∧ PyVal.none.isDatetime = false ∧
      PyVal.none.isPureDate = false ∧ format_br_date PyVal.none = .str "" :=
  ⟨rfl, rfl, rfl, c10_format_br_date_other_types_empty PyVal.none rfl rfl rfl⟩

/-- Every value has positive structural size. -/
theorem PyVal.size_pos (v : PyVal) : 1 ≤ v.size := by
  cases v <;> simp [PyVal.size]

/-- Claim C6, counterexample: the claim says the two `extract_date`
implementations agree; on a date property with start `"2024-01-01"` the
free-function module returns the scalar start while the class module returns
a start/end pair, and the two values differ. -/
theorem c6_extract_date_policies_disagree_cex :
    extract_date c6prop = .ok (.str "2024-01-01") ∧
      NotionUtils.extract_date c6prop =
        .ok (.dict [(.str "start", .str "2024-01-01"), (.str "end", .none)]) ∧
      PyVal.str "2024-01-01" ≠
        .dict [(.str "start", .str "2024-01-01"), (.str "end", .none)] :=
  ⟨rfl, rfl, fun h => PyVal.noConfusion h⟩

/-- Claim C6, amended: the two date-extraction implementations never agree —
whenever both succeed on the same property, the free-function module's scalar
(`start` or `end`) differs from the class module's start/end pair. -/
theorem c6_extract_date_policies_never_agree (prop a b : PyVal)
    (h1 : extract_date prop = .ok a)
    (h2 : NotionUtils.extract_date prop = .ok b) : a ≠ b := by
  cases prop with
  | dict es =>
    simp only [extract_date, NotionUtils.extract_date, PyVal.get, bind, Except.bind] at h1 h2
    cases hd : pyOr (dictLookup es "date") (.dict []) with
    | dict des =>
      rw [hd] at h1 h2
      simp only [PyVal.get] at h1 h2
      cases h2
      by_cases hs : (dictLookup des "start").truthy
      · simp only [hs, if_true, pure, Except.pure, Except.ok.injEq] at h1
        subst h1
        intro heq
        have := congrArg PyVal.size heq
        simp [PyVal.size, sizeEP, sizeLP] at this
        omega
      · simp [hs, PyVal.get] at h1
        subst h1
        intro heq
        have := congrArg PyVal.size heq
        simp [PyVal.size, sizeEP, sizeLP] at this
        omega
    | none => rw [hd] at h1; simp [PyVal.get] at h1
    | bool bb => rw [hd] at h1; simp [PyVal.get] at h1
    | int n => rw [hd] at h1; simp [PyVal.get] at h1
    | str s => rw [hd] at h1; simp [PyVal.get] at h1
    | list xs => rw [hd] at h1; simp [PyVal.get] at h1
    | pydate d => rw [hd] at h1; simp [PyVal.get] at h1
    | pydt d t => rw [hd] at h1; simp [PyVal.get] at h1
  | none => simp [extract_date, PyVal.get, bind, Except.bind] at h1
  | bool bb => simp [extract_date, PyVal.get, bind, Except.bind] at h1
  | int n => simp [extract_date, PyVal.get, bind, Except.bind] at h1
  | str s => simp [extract_date, PyVal.get, bind, Except.bind] at h1
  | list xs => simp [extract_date, PyVal.get, bind, Except.bind] at h1
  | pydate d => simp [extract_date, PyVal.get, bind, Except.bind] at h1
  | pydt d t => simp [extract_date, PyVal.get, bind, Except.bind] at h1

/-- Witness for the amended C6 theorem at the concrete fixture. -/
theorem c6_extract_date_policies_never_agree_witness :
    extract_date c6prop = .ok (.str "2024-01-01") ∧
      NotionUtils.extract_date c6prop =
        .ok (.dict [(.str "start", .str "2024-01-01"), (.str "end", .none)]) ∧
      PyVal.str "2024-01-01" ≠
        .dict [(.str "start", .str "2024-01-01"), (.str "end", .none)] :=
  ⟨rfl, rfl, c6_extract_date_policies_never_agree c6prop _ _ rfl rfl⟩

/-- The api rollup accumulation loop agrees with a fold of `rollupStep` over
the element-wise simplifications. -/
theorem rollupAccumW_eq_foldl (xs : List PyVal) :
    ∀ (acc : List PyVal) (vs : List PyVal),
      xs.mapM (fun item => simplify_property (if item.isDict then item else .dict []))
        = .ok vs →
      rollupAccumW simplify_property acc xs = .ok (vs.foldl rollupStep acc) := by
  induction xs with
  | nil =>
    intro acc vs h
    simp only [List.mapM_nil, pure, Except.pure, Except.ok.injEq] at h
    subst h
    simp [rollupAccumW]
  | cons item rest ih =>
    intro acc vs h
    rw [List.mapM_cons] at h
    cases hv : simplify_property (if item.isDict then item else .dict []) with
    | error e => simp [hv, bind, Except.bind] at h
    | ok v =>
      rw [hv] at h
      simp only [bind, Except.bind] at h
      cases ht : rest.mapM
          (fun item => simplify_property (if item.isDict then item else .dict [])) with
      | error e => rw [ht] at h; simp at h
      | ok tl =>
        rw [ht] at h
        simp only [pure, Except.pure, Except.ok.injEq] at h
        subst h
        simp only [rollupAccumW, hv, bind, Except.bind]
        show rollupAccumW simplify_property (rollupStep acc v) rest =
          Except.ok (List.foldl rollupStep acc (v :: tl))
        rw [ih (rollupStep acc v) tl ht, List.foldl_cons]

/-- Claim C3, counterexample: the claim's own fixture (rollup array elements
simplifying to `""`, `"Z"`, `None`) does not yield the scalar `"Z"` under the
class module's `extract_rollup` — blanks are kept there, so it returns the
two-element list `["", "Z"]`. -/
theorem c3_rollup_array_cex :
    NotionUtils.extract_rollup c3prop = .ok (.list [.str "", .str "Z"]) ∧
      PyVal.list [.str "", .str "Z"] ≠ .str "Z" :=
  ⟨rfl, fun h => PyVal.noConfusion h⟩

/-- Claim C3, amended: the described rollup-array reduction (recursively
simplify each element, drop `None`/`""`, flatten lists, unwrap singletons,
`None` when empty) holds for the free-function module's `extract_rollup`; in
particular the claim's fixture yields the scalar `"Z"` there (also through
`simplify_property` dispatch).  The class module instead keeps blank
per-element results (see the counterexample). -/
theorem c3_rollup_array_reduction (prop roll av : PyVal) (xs vs : List PyVal)
    (hroll : prop.get "rollup" = .ok roll)
    (htr : roll.truthy = true)
    (htype : roll.get "type" = .ok (.str "array"))
    (harr : roll.get "array" = .ok av)
    (hxs : pyOr av (.list []) = .list xs)
    (hsim : xs.mapM (fun item => simplify_property (if item.isDict then item else .dict []))
      = .ok vs) :
    extract_rollup prop = .ok (rollupCollapse (vs.foldl rollupStep [])) ∧
      simplify_property c3tagged = .ok (.str "Z") := by
  constructor
  · simp only [extract_rollup, extractRollupWith, hroll, bind, Except.bind]
    have hor : pyOr roll (.dict []) = roll := by simp [pyOr, htr]
    rw [hor, htype]
    simp only [keyMatches, beq_self_eq_true, if_true, harr, hxs]
    simp only [pyIter]
    rw [rollupAccumW_eq_foldl xs [] vs hsim]
    rfl
  · rfl

/-- Witness for C3 at the claim's fixture: elements simplifying to `""`, `"Z"`
and `None` reduce to the scalar `"Z"`. -/
theorem c3_rollup_array_reduction_witness :
    extract_rollup c3prop = .ok (.str "Z") ∧
      simplify_property c3tagged = .ok (.str "Z") := by
  have h := c3_rollup_array_reduction c3prop c3roll
    (.list [
      .dict [(.str "type", .str "rich_text"), (.str "rich_text", .list [])],
      .dict [(.str "type", .str "rich_text"),
             (.str "rich_text", .list [.dict [(.str "plain_text", .str "Z")]])],
      .dict []])
    [ .dict [(.str "type", .str "rich_text"), (.str "rich_text", .list [])],
      .dict [(.str "type", .str "rich_text"),
             (.str "rich_text", .list [.dict [(.str "plain_text", .str "Z")]])],
      .dict []]
    [.str "", .str "Z", PyVal.none] rfl rfl rfl rfl rfl rfl
  exact ⟨h.1.trans rfl, h.2⟩

/-- The api people loop produces one entry per mapping person, in order, each
computed as `personEntry` (providing the person sub-objects are well shaped,
so the nested email access cannot raise). -/
theorem peopleLoop_eq_filterMap (ps : List PyVal)
    (hshape : ∀ p ∈ ps, personShaped p) :
    peopleLoop ps = .ok (ps.filterMap (fun p =>
      match p with
      | .dict pes => Option.some (personEntry pes)
      | _ => Option.none)) := by
  induction ps with
  | nil => simp [peopleLoop]
  | cons p rest ih =>
    have hp := hshape p (List.mem_cons_self p rest)
    have hrest : ∀ q ∈ rest, personShaped q :=
      fun q hq => hshape q (List.mem_cons_of_mem p hq)
    cases p with
    | dict pes =>
      simp only [peopleLoop, PyVal.get, bind, Except.bind, List.filterMap_cons]
      by_cases hn : (dictLookup pes "name").truthy
      · simp only [hn, if_true, pure, Except.pure]
        rw [ih hrest]
        simp [personEntry, hn]
      · simp only [hn, if_false, Bool.false_eq_true, personShaped] at hp ⊢
        cases hor : pyOr (dictLookup pes "person") (.dict []) with
        | dict ses =>
          simp only [hor, PyVal.get, bind, Except.bind]
          by_cases he : (dictLookup ses "email").truthy
          · simp only [he, if_true, pure, Except.pure]
            rw [ih hrest]
            simp [personEntry, hn, he, hor]
          · simp only [he, if_false, Bool.false_eq_true, PyVal.get, bind, Except.bind]
            rw [ih hrest]
            simp only [personEntry, hn, he, hor, if_false, Bool.false_eq_true]
            rfl
        | none => rw [hor] at hp; simp [PyVal.isDict] at hp
        | bool b => rw [hor] at hp; simp [PyVal.isDict] at hp
        | int n => rw [hor] at hp; simp [PyVal.isDict] at hp
        | str s => rw [hor] at hp; simp [PyVal.isDict] at hp
        | list xs => rw [hor] at hp; simp [PyVal.isDict] at hp
        | pydate d => rw [hor] at hp; simp [PyVal.isDict] at hp
        | pydt d t => rw [hor] at hp; simp [PyVal.isDict] at hp
    | none => simp only [peopleLoop, List.filterMap_cons]; exact ih hrest
    | bool b => simp only [peopleLoop, List.filterMap_cons]; exact ih hrest
    | int n => simp only [peopleLoop, List.filterMap_cons]; exact ih hrest
    | str s => simp only [peopleLoop, List.filterMap_cons]; exact ih hrest
    | list xs => simp only [peopleLoop, List.filterMap_cons]; exact ih hrest
    | pydate d => simp only [peopleLoop, List.filterMap_cons]; exact ih hrest
    | pydt d t => simp only [peopleLoop, List.filterMap_cons]; exact ih hrest

/-- Claim C4, counterexample: for a people property whose single person has an
id but no display name, the class module's `simplify_property` drops the
entry entirely (returning `[]`), while the claim requires one entry (the id)
per person object. -/
theorem c4_people_entries_cex :
    NotionUtils.simplify_property c4prop = .ok (.list []) ∧
      _people_list c4prop = .ok (.list [.str "u1"]) ∧
      PyVal.list [] ≠ .list [.str "u1"] :=
  ⟨rfl, rfl, by simp⟩

/-- Claim C4, amended: the described people reduction (one entry per person
object, in order — display name, else nested email, else id, entries without
a display name included) holds for the free-function module's `_people_list`;
the class module instead keeps only the names of entries that have one (see
the counterexample). -/
theorem c4_people_one_entry_per_person (prop pv : PyVal) (ps : List PyVal)
    (hp : prop.get "people" = .ok pv)
    (hiter : pyIter (pyOr pv (.list [])) = .ok ps)
    (hshape : ∀ p ∈ ps, personShaped p) :
    _people_list prop = .ok (.list (ps.filterMap (fun p =>
      match p with
      | .dict pes => Option.some (personEntry pes)
      | _ => Option.none))) := by
  simp only [_people_list, hp, bind, Except.bind, hiter]
  rw [peopleLoop_eq_filterMap ps hshape]
  rfl

/-- Witness for C4: the nameless person's entry is its id, not dropped. -/
theorem c4_people_one_entry_per_person_witness :
    _people_list c4prop = .ok (.list [.str "u1"]) := by
  have h := c4_people_one_entry_per_person c4prop
    (.list [.dict [(.str "id", .str "u1")]])
    [.dict [(.str "id", .str "u1")]] rfl rfl ?_
  · exact h.trans rfl
  · intro p hp
    simp only [List.mem_singleton] at hp
    subst hp
    simp [personShaped, pyOr, PyVal.truthy, dictLookup, keyMatches, PyVal.isDict]

/-- Lookup distributes over append when the key is found on the left. -/
theorem lookup_append_some {α β : Type} [BEq α] (l1 l2 : List (α × β)) (a : α) (b : β)
    (h : l1.lookup a = Option.some b) : (l1 ++ l2).lookup a = Option.some b := by
  induction l1 with
  | nil => simp [List.lookup] at h
  | cons e tl ih =>
    obtain ⟨k, v⟩ := e
    cases hk : a == k with
    | true => simp [List.lookup_cons, hk] at h ⊢; exact h
    | false => simp [List.lookup_cons, hk] at h ⊢; exact ih h

/-- Lookup skips a left part that does not contain the key. -/
theorem lookup_append_none {α β : Type} [BEq α] (l1 l2 : List (α × β)) (a : α)
    (h : l1.lookup a = Option.none) : (l1 ++ l2).lookup a = l2.lookup a := by
  induction l1 with
  | nil => simp
  | cons e tl ih =>
    obtain ⟨k, v⟩ := e
    cases hk : a == k with
    | true => simp [List.lookup_cons, hk] at h
    | false => simp [List.lookup_cons, hk] at h ⊢; exact ih h

/-- A canonical key already bound in the accumulator survives the rest of the
`normalize_properties` loop unchanged (later collisions never overwrite). -/
theorem normPropsGo_preserve (c : String) (kv : String × PyVal) :
    ∀ (props : List (PyVal × PyVal)) (acc : List (String × String × PyVal)),
      acc.lookup c = Option.some kv →
      (normPropsGo acc props).lookup c = Option.some kv := by
  intro props
  induction props with
  | nil => intro acc h; simpa [normPropsGo] using h
  | cons e rest ih =>
    intro acc h
    obtain ⟨k0, v0⟩ := e
    cases k0 with
    | str s0 =>
      simp only [normPropsGo]
      by_cases h1 : to_snake s0 = ""
      · simp only [h1, if_true]; exact ih acc h
      · simp only [h1, if_false]
        by_cases h2 : (acc.lookup (to_snake s0)).isSome
        · simp only [h2, if_true]; exact ih acc h
        · simp only [h2, Bool.false_eq_true, if_false]
          exact ih _ (lookup_append_some acc _ c kv h)
    | none => simp only [normPropsGo]; exact ih acc h
    | bool b => simp only [normPropsGo]; exact ih acc h
    | int n => simp only [normPropsGo]; exact ih acc h
    | list xs => simp only [normPropsGo]; exact ih acc h
    | dict es => simp only [normPropsGo]; exact ih acc h
    | pydate d => simp only [normPropsGo]; exact ih acc h
    | pydt d t => simp only [normPropsGo]; exact ih acc h

/-- The `normalize_properties` loop binds a canonical key to the first raw
entry whose string key normalizes to it. -/
theorem normPropsGo_first_wins (c k : String) (v : PyVal) (hc : c ≠ "") :
    ∀ (props : List (PyVal × PyVal)) (acc : List (String × String × PyVal)),
      acc.lookup c = Option.none →
      props.find? (fun e =>
        match e.1 with
        | .str s => to_snake s == c
        | _ => false) = Option.some (.str k, v) →
      (normPropsGo acc props).lookup c = Option.some (k, v) := by
  intro props
  induction props with
  | nil => intro acc _ hfind; simp at hfind
  | cons e rest ih =>
    intro acc hacc hfind
    obtain ⟨k0, v0⟩ := e
    cases k0 with
    | str s0 =>
      rw [List.find?_cons] at hfind
      cases hsn : to_snake s0 == c with
      | true =>
        simp only [hsn, Option.some.injEq, Prod.mk.injEq, PyVal.str.injEq] at hfind
        obtain ⟨hks, hv⟩ := hfind
        subst hks
        subst hv
        have hsnc : to_snake s0 = c := by simpa using hsn
        simp only [normPropsGo, hsnc, hc, if_false]
        have hisSome : (acc.lookup c).isSome = false := by simp [hacc]
        simp only [hisSome, Bool.false_eq_true, if_false]
        refine normPropsGo_preserve c (s0, v0) rest _ ?_
        rw [lookup_append_none acc _ c hacc]
        simp [List.lookup_cons]
      | false =>
        simp only [hsn] at hfind
        have hne : to_snake s0 ≠ c := by simpa using hsn
        simp only [normPropsGo]
        by_cases h1 : to_snake s0 = ""
        · simp only [h1, if_true]; exact ih acc hacc hfind
        · simp only [h1, if_false]
          by_cases h2 : (acc.lookup (to_snake s0)).isSome
          · simp only [h2, if_true]; exact ih acc hacc hfind
          · simp only [h2, Bool.false_eq_true, if_false]
            refine ih _ ?_ hfind
            rw [lookup_append_none acc _ c hacc]
            have hcb : (c == to_snake s0) = false := by simp [Ne.symm hne]
            simp [List.lookup_cons, hcb, List.lookup]
    | none => rw [List.find?_cons] at hfind; simp only [normPropsGo]; exact ih acc hacc hfind
    | bool b => rw [List.find?_cons] at hfind; simp only [normPropsGo]; exact ih acc hacc hfind
    | int n => rw [List.find?_cons] at hfind; simp only [normPropsGo]; exact ih acc hacc hfind
    | list xs => rw [List.find?_cons] at hfind; simp only [normPropsGo]; exact ih acc hacc hfind
    | dict es => rw [List.find?_cons] at hfind; simp only [normPropsGo]; exact ih acc hacc hfind
    | pydate d => rw [List.find?_cons] at hfind; simp only [normPropsGo]; exact ih acc hacc hfind
    | pydt d t => rw [List.find?_cons] at hfind; simp only [normPropsGo]; exact ih acc hacc hfind

/-- `simplify_properties_map` binds each canonical key to the simplification
of the raw value stored for it in the normalized mapping. -/
theorem simpMapGo_lookup (c k : String) (v : PyVal) :
    ∀ (l : List (String × String × PyVal)) (m : List (String × PyVal)),
      simpMapGo l = .ok m →
      l.lookup c = Option.some (k, v) →
      ∃ sv, simplify_property (if v.isDict then v else .dict [(.str "type", .none)]) = .ok sv ∧
        m.lookup c = Option.some sv := by
  intro l
  induction l with
  | nil => intro m _ hl; simp [List.lookup] at hl
  | cons e rest ih =>
    intro m hm hl
    obtain ⟨snake, orig, raw⟩ := e
    simp only [simpMapGo, bind, Except.bind] at hm
    cases hs : simplify_property (if raw.isDict then raw else .dict [(.str "type", .none)]) with
    | error er => rw [hs] at hm; simp at hm
    | ok sv0 =>
      rw [hs] at hm
      cases ht : simpMapGo rest with
      | error er => rw [ht] at hm; simp at hm
      | ok tl =>
        rw [ht] at hm
        simp only [pure, Except.pure, Except.ok.injEq] at hm
        subst hm
        rw [List.lookup_cons] at hl
        cases hck : c == snake with
        | true =>
          rw [hck] at hl
          simp only [Option.some.injEq, Prod.mk.injEq] at hl
          obtain ⟨hk, hv⟩ := hl
          subst hk
          subst hv
          refine ⟨sv0, hs, ?_⟩
          rw [List.lookup_cons, hck]
        | false =>
          rw [hck] at hl
          obtain ⟨sv, hsv, hm⟩ := ih tl ht hl
          refine ⟨sv, hsv, ?_⟩
          rw [List.lookup_cons, hck]
          exact hm

/-- Claim C2: when raw keys collide on the same canonical key, the value bound
by `normalize_properties` is the one of the raw key that appears first in
iteration order, and `simplify_properties_map` (when it returns) binds the
canonical key to the simplification of that first value. -/
theorem c2_first_occurrence_wins (props : List (PyVal × PyVal)) (c k : String) (v : PyVal)
    (hc : c ≠ "")
    (hfind : props.find? (fun e =>
      match e.1 with
      | .str s => to_snake s == c
      | _ => false) = Option.some (.str k, v)) :
    (normalize_properties props).lookup c = Option.some (k, v) ∧
      ∀ m, simplify_properties_map props = .ok m →
        ∃ sv, simplify_property (if v.isDict then v else .dict [(.str "type", .none)]) = .ok sv ∧
          m.lookup c = Option.some sv := by
  have h1 : (normalize_properties props).lookup c = Option.some (k, v) :=
    normPropsGo_first_wins c k v hc props [] rfl hfind
  exact ⟨h1, fun m hm => simpMapGo_lookup c k v (normalize_properties props) m hm h1⟩

/-- Witness for C2 on the explicit two-key collision fixture: both raw keys
normalize to `nome_do_piloto`; the first one (value `1`) wins. -/
theorem c2_first_occurrence_wins_witness :
    (normalize_properties c2props).lookup "nome_do_piloto" =
        Option.some ("Nome do Piloto", PyVal.int 1) ∧
      ∃ sv, simplify_property (if (PyVal.int 1).isDict then PyVal.int 1
              else .dict [(.str "type", .none)]) = .ok sv ∧
        List.lookup "nome_do_piloto" [("nome_do_piloto", PyVal.none)] = Option.some sv := by
  have h := c2_first_occurrence_wins c2props "nome_do_piloto" "Nome do Piloto" (PyVal.int 1)
    (by decide) rfl
  exact ⟨h.1, h.2 [("nome_do_piloto", PyVal.none)] rfl⟩

/-- Tier one of the regex locator is a first-match search over the
strict-normalized (identifier-form) keys in mapping iteration order. -/
theorem searchNorm_eq_find (reg : String → Bool) (l : List (String × String × PyVal)) :
    searchNorm reg l = (l.find? (fun e => reg e.1)).map (fun e => e.2.2) := by
  induction l with
  | nil => rfl
  | cons e tl ih =>
    obtain ⟨snake, orig, val⟩ := e
    simp only [searchNorm, List.find?_cons]
    cases hr : reg snake with
    | true => simp [hr]
    | false => simp [hr, ih]

/-- Tier two of the api locator is a first-match search over the raw keys
under flexible normalization. -/
theorem searchFlex_eq_find (reg : String → Bool) (l : List (PyVal × PyVal)) :
    searchFlex reg l = (l.find? (fun e => reg (flexKey e.1))).map (fun e => e.2) := by
  induction l with
  | nil => rfl
  | cons e tl ih =>
    obtain ⟨k, v⟩ := e
    simp only [searchFlex, List.find?_cons]
    cases hr : reg (flexKey k) with
    | true => simp [hr]
    | false => simp [hr, ih]

/-- Claim C5, counterexample: the claim says the fallback scans raw keys under
*flexible* normalization; the class module's `find_property_by_regex`
re-applies the strict normalizer there instead.  For the key `"Área(ha)"`
(strict `"area ha"`, identifier `"area_ha"`, flexible `"areaha"`) and the
literal pattern `"areaha"`, the class locator finds nothing while the
behaviour the claim describes (the api locator) returns the value. -/
theorem c5_fallback_normalization_cex :
    NotionUtils.find_property_by_regex literalCompile c5props "areaha" = Option.none ∧
      find_property_by_regex literalCompile c5props "areaha" = Option.some (.int 7) :=
  ⟨rfl, rfl⟩

/-- Claim C5, amended: the described behaviour holds for the free-function
module's `find_property_by_regex` — absent/empty map, empty pattern or failed
compilation yield absent without raising; otherwise the strict-normalized
identifier keys are searched first (first match in mapping iteration order),
with a fallback over the raw keys under flexible normalization, returning the
raw unreduced value.  The class module's fallback uses strict, not flexible,
normalization (see the counterexample). -/
theorem c5_find_property_by_regex_order (compile : String → Option (String → Bool))
    (props : List (PyVal × PyVal)) (pattern : String) :
    (props = [] → find_property_by_regex compile props pattern = Option.none) ∧
      (pattern = "" → find_property_by_regex compile props pattern = Option.none) ∧
      (compile pattern = Option.none →
        find_property_by_regex compile props pattern = Option.none) ∧
      (∀ reg, compile pattern = Option.some reg → props ≠ [] → pattern ≠ "" →
        find_property_by_regex compile props pattern =
          (((normalize_properties props).find? (fun e => reg e.1)).map (fun e => e.2.2)).or
            ((props.find? (fun e => reg (flexKey e.1))).map (fun e => e.2))) := by
  refine ⟨?_, ?_, ?_, ?_⟩
  · intro h; subst h; simp [find_property_by_regex]
  · intro h; subst h; simp [find_property_by_regex]
  · intro h; simp [find_property_by_regex, h]
  · intro reg hreg hprops hpat
    have hne : props.isEmpty = false := by
      cases props with
      | nil => exact absurd rfl hprops
      | cons e tl => rfl
    simp only [find_property_by_regex, hne, hpat, Bool.false_or, if_false, hreg,
      searchNorm_eq_find, searchFlex_eq_find]
    cases ((normalize_properties props).find? (fun e => reg e.1)).map (fun e => e.2.2) with
    | none => simp [Option.or]
    | some v => simp [Option.or]

/-- Witness for C5: on the concrete fixture the api locator misses in tier one
and returns the value found by the flexible fallback; an empty map or empty
pattern yields absent. -/
theorem c5_find_property_by_regex_order_witness :
    find_property_by_regex literalCompile c5props "areaha" = Option.some (.int 7) ∧
      find_property_by_regex literalCompile [] "areaha" = Option.none ∧
      find_property_by_regex literalCompile c5props "" = Option.none := by
  refine ⟨?_, ?_, ?_⟩
  · have h := (c5_find_property_by_regex_order literalCompile c5props "areaha").2.2.2
      (fun s => containsSub "areaha".data s.data) rfl
      (by simp [c5props]) (by decide)
    exact h.trans rfl
  · exact (c5_find_property_by_regex_order literalCompile [] "areaha").1 rfl
  · exact (c5_find_property_by_regex_order literalCompile c5props "").2.1 rfl

/-- `getLast?` of a cons, fused with a fallback: the head becomes the new
fallback (last occurrence wins). -/
theorem getLast?_cons_or {α : Type} (a : α) (l : List α) (x : Option α) :
    ((a :: l).getLast?).or x = (l.getLast?).or (Option.some a) := by
  cases l with
  | nil => simp
  | cons b m =>
    rw [List.getLast?_cons_cons]
    cases hg : (b :: m).getLast? with
    | some y => simp
    | none => exact absurd hg (by simp)

/-- The fallback loop of the drone splitter, as a fold, computes: the model
parts are the segments that are neither all digits nor `ps`-prefixed, and the
fleet code is the last digit candidate (all-digit segment, or digits of a
`ps`-prefixed segment), with the initial value as fallback. -/
theorem dashFold_eq (parts : List String) :
    ∀ (ms : List String) (pf : Option String),
      parts.foldl dashStep (ms, pf) =
        (ms ++ parts.filter (fun p => !allDigits p && !lowerStartsPs p),
         ((parts.filterMap (fun p =>
            if allDigits p then Option.some p
            else if lowerStartsPs p then (firstDigitRun p.data).map String.mk
            else Option.none)).getLast?).or pf) := by
  induction parts with
  | nil => intro ms pf; simp
  | cons p rest ih =>
    intro ms pf
    rw [List.foldl_cons]
    by_cases hd : allDigits p
    · have hstep : dashStep (ms, pf) p = (ms, Option.some p) := by
        simp [dashStep, hd]
      rw [hstep, ih]
      simp [List.filter_cons, List.filterMap_cons, hd, getLast?_cons_or]
    · by_cases hps : lowerStartsPs p
      · cases hdr : (firstDigitRun p.data) with
        | some ds =>
          have hstep : dashStep (ms, pf) p = (ms, Option.some (String.mk ds)) := by
            simp [dashStep, hd, hps, hdr]
          rw [hstep, ih]
          simp [List.filter_cons, List.filterMap_cons, hd, hps, hdr, getLast?_cons_or]
        | none =>
          have hstep : dashStep (ms, pf) p = (ms, pf) := by
            simp [dashStep, hd, hps, hdr]
          rw [hstep, ih]
          simp [List.filter_cons, List.filterMap_cons, hd, hps, hdr]
      · have hstep : dashStep (ms, pf) p = (ms ++ [p], pf) := by
          simp [dashStep, hd, hps]
        rw [hstep, ih]
        simp [List.filter_cons, List.filterMap_cons, hd, hps]

/-- Claim C9, counterexample: `"PS"` contains a standalone `PS` token (match
at index 0), so the claim says the model is everything before the token,
i.e. `""`; the code falls back to the whole input (`left or value`) and
returns `("PS", None)`. -/
theorem c9_split_empty_left_cex :
    findPs "PS".data = Option.some 0 ∧
      splitModelPfx "PS" = ("PS", Option.none) ∧
      ("PS" : String) ≠ "" :=
  ⟨rfl, rfl, by decide⟩

/-- Claim C9, amended: with a standalone `PS` token, the model is everything
before the token (trimmed, one trailing dash removed) — except that an empty
model falls back to the whole input string — and the fleet code is the first
digit run after the token, else the trimmed right remainder, absent when that
remainder is empty.  Without a `PS` token, the input splits on dash-like
separators; the last all-digit segment (or the digits of a `ps`-prefixed
segment) is the fleet code and the remaining non-digit, non-`ps` segments
join with " - " as the model (first segment, or the whole input, when none
remain).  The claim's fixtures hold. -/
theorem c9_split_model_fleet_code (value : String) :
    (∀ i, findPs value.data = Option.some i →
      splitModelPfx value =
        (let left := pyStripS (String.mk (subTrailingDash
            (pyStripS (String.mk (value.data.take i))).data))
         let right := pyStripS (String.mk (subLeadingDash
            (pyStripS (String.mk (value.data.drop (i + 2)))).data))
         ((if left = "" then value else left),
          ((firstDigitRun right.data).map String.mk).or
            (if right = "" then Option.none else Option.some right)))) ∧
    (findPs value.data = Option.none →
      splitModelPfx value =
        (let parts := ((splitDashes value.data).map
            (fun l => pyStripS (String.mk l))).filter (fun p => p ≠ "")
         let ms := parts.filter (fun p => !allDigits p && !lowerStartsPs p)
         ((if ms ≠ [] then pyStripS (String.intercalate " - " ms)
           else
             match parts with
             | p :: _ => p
             | [] => value),
          (parts.filterMap (fun p =>
            if allDigits p then Option.some p
            else if lowerStartsPs p then (firstDigitRun p.data).map String.mk
            else Option.none)).getLast?))) ∧
    splitModelPfx "DJI T40 PS 015" = ("DJI T40", Option.some "015") ∧
    splitModelPfx "Agras T30 - 007" = ("Agras T30", Option.some "007") := by
  refine ⟨?_, ?_, rfl, rfl⟩
  · intro i h
    simp only [splitModelPfx, h]
    cases hfd : firstDigitRun (pyStripS (String.mk (subLeadingDash
        (pyStripS (String.mk (value.data.drop (i + 2)))).data))).data with
    | some ds => simp [hfd]
    | none => simp [hfd]
  · intro h
    simp only [splitModelPfx, h]
    rw [dashFold_eq]
    simp

/-- Witness for C9 at the claim's two fixtures, one per branch. -/
theorem c9_split_model_fleet_code_witness :
    splitModelPfx "DJI T40 PS 015" = ("DJI T40", Option.some "015") ∧
      splitModelPfx "Agras T30 - 007" = ("Agras T30", Option.some "007") := by
  have h1 := (c9_split_model_fleet_code "DJI T40 PS 015").1 8 rfl
  have h2 := (c9_split_model_fleet_code "Agras T30 - 007").2.1 rfl
  exact ⟨h1.trans rfl, h2.trans rfl⟩

/-- Claim C8, counterexample: on parse failure the code returns the *stripped*
string, not the original unchanged: `" x "` comes back as `"x"`. -/
theorem c8_parse_failure_returns_stripped_cex :
    format_br_date (.str " x ") = .str "x" ∧ (" x " : String) ≠ "x" :=
  ⟨rfl, by decide⟩

/-- Claim C8, amended: for string inputs, a successfully parsed timestamp
formats as day/month/year and appends hour:minute:second exactly when the
stripped string contains an HH:MM pattern or the parsed time of day is not
midnight (i.e. the value carries a time component); when parsing fails (both
the datetime and the date-only attempt), the *trimmed* original string is
returned unchanged rather than raising.  The claim's fixtures hold: a
timestamp formats with date and time, a date-only string with the date
only. -/
theorem c8_format_br_date_time_component (s : String) :
    (∀ d t, dtFromIso (replaceZS (pyStripS s)) = Option.some (d, t) →
      format_br_date (.str s) =
        (if _string_contains_time (pyStripS s) || t ≠ midnightT
         then .str (fmtBrDate d ++ " " ++ fmtBrTime t)
         else .str (fmtBrDate d))) ∧
    (dtFromIso (replaceZS (pyStripS s)) = Option.none →
      dateFromIso (pyStripS s) = Option.none →
      format_br_date (.str s) = .str (pyStripS s)) ∧
    format_br_date (.str "2024-05-01T14:30:00") = .str "01/05/2024 14:30:00" ∧
    format_br_date (.str "2024-05-01") = .str "01/05/2024" := by
  refine ⟨?_, ?_, rfl, rfl⟩
  · intro d t hdt
    by_cases hs : pyStripS s = ""
    · rw [hs] at hdt
      simp [replaceZS, replaceZ, dtFromIso, parseIsoDate] at hdt
    · simp [format_br_date, hs, hdt]
  · intro hdt hd
    by_cases hs : pyStripS s = ""
    · simp [format_br_date, hs]
    · simp [format_br_date, hs, hdt, hd]

/-- Witness for C8: the timestamp fixture discharges the parse-success branch
and `"x"` the parse-failure branch. -/
theorem c8_format_br_date_time_component_witness :
    format_br_date (.str "2024-05-01T14:30:00") = .str "01/05/2024 14:30:00" ∧
      format_br_date (.str "x") = .str "x" := by
  have h1 := (c8_format_br_date_time_component "2024-05-01T14:30:00").1
    ⟨2024, 5, 1⟩ ⟨14, 30, 0, 0⟩ rfl
  have h2 := (c8_format_br_date_time_component "x").2.1 rfl rfl
  exact ⟨h1.trans rfl, h2.trans rfl⟩

/-- Characters of a run-replacement output: the replacement character or a
kept (non-matching) character of the input. -/
theorem runsAux_mem (p : Char → Bool) (rep : Char) :
    ∀ (l : List Char) (b : Bool) (c : Char),
      c ∈ runsAux p rep b l → c = rep ∨ (c ∈ l ∧ p c = false) := by
  intro l
  induction l with
  | nil => intro b c h; simp [runsAux] at h
  | cons c0 cs ih =>
    intro b c h
    by_cases h0 : p c0
    · cases b with
      | true =>
        simp only [runsAux, h0, if_true] at h
        rcases ih true c h with h1 | ⟨h1, h2⟩
        · exact Or.inl h1
        · exact Or.inr ⟨List.mem_cons_of_mem c0 h1, h2⟩
      | false =>
        simp only [runsAux, h0, if_true] at h
        rcases List.mem_cons.mp h with h1 | h1
        · exact Or.inl h1
        · rcases ih true c h1 with h2 | ⟨h2, h3⟩
          · exact Or.inl h2
          · exact Or.inr ⟨List.mem_cons_of_mem c0 h2, h3⟩
    · have h0' : p c0 = false := by simpa using h0
      simp only [runsAux, h0', Bool.false_eq_true, if_false] at h
      rcases List.mem_cons.mp h with h1 | h1
      · subst h1; exact Or.inr ⟨List.mem_cons_self c cs, h0'⟩
      · rcases ih false c h1 with h2 | ⟨h2, h3⟩
        · exact Or.inl h2
        · exact Or.inr ⟨List.mem_cons_of_mem c0 h2, h3⟩

/-- In-run replacement never starts with a matching character. -/
theorem runsAux_head_true (p : Char → Bool) (rep : Char) :
    ∀ (l : List Char) (c : Char),
      (runsAux p rep true l).head? = Option.some c → p c = false := by
  intro l
  induction l with
  | nil => intro c h; simp [runsAux] at h
  | cons c0 cs ih =>
    intro c h
    by_cases h0 : p c0
    · simp only [runsAux, h0, if_true] at h
      exact ih c h
    · have h0' : p c0 = false := by simpa using h0
      simp only [runsAux, h0', Bool.false_eq_true, if_false, List.head?_cons,
        Option.some.injEq] at h
      subst h
      exact h0'

/-- Run replacement leaves no two adjacent matching characters. -/
theorem runsAux_chain (p : Char → Bool) (rep : Char) :
    ∀ (l : List Char) (b : Bool),
      (runsAux p rep b l).Chain' (fun a c => ¬(p a = true ∧ p c = true)) := by
  intro l
  induction l with
  | nil => intro b; simp [runsAux]
  | cons c0 cs ih =>
    intro b
    by_cases h0 : p c0
    · cases b with
      | true => simpa only [runsAux, h0, if_true] using ih true
      | false =>
        simp only [runsAux, h0, if_true, Bool.false_eq_true, if_false]
        rw [List.chain'_cons']
        refine ⟨?_, ih true⟩
        intro c hc
        have := runsAux_head_true p rep cs c hc
        simp [this]
    · have h0' : p c0 = false := by simpa using h0
      simp only [runsAux, h0', Bool.false_eq_true, if_false]
      rw [List.chain'_cons']
      refine ⟨?_, ih false⟩
      intro c _
      simp [h0']

/-- Run replacement is the identity when no character matches. -/
theorem runsAux_id_of_not (p : Char → Bool) (rep : Char) :
    ∀ (l : List Char) (b : Bool), (∀ c ∈ l, p c = false) → runsAux p rep b l = l := by
  intro l
  induction l with
  | nil => intro b _; rfl
  | cons c0 cs ih =>
    intro b h
    have h0 := h c0 (List.mem_cons_self c0 cs)
    simp only [runsAux, h0, Bool.false_eq_true, if_false]
    rw [ih false (fun c hc => h c (List.mem_cons_of_mem c0 hc))]

/-- Run replacement is the identity when every matching character already is
the replacement and no two of them are adjacent. -/
theorem runsAux_id_of_chain (p : Char → Bool) (rep : Char) :
    ∀ (l : List Char),
      (∀ c ∈ l, p c = true → c = rep) →
      l.Chain' (fun a c => ¬(p a = true ∧ p c = true)) →
      (runsAux p rep false l = l ∧
        ((∀ c, l.head? = Option.some c → p c = false) → runsAux p rep true l = l)) := by
  intro l
  induction l with
  | nil => intro _ _; exact ⟨rfl, fun _ => rfl⟩
  | cons c0 cs ih =>
    intro hrep hch
    have hch' : cs.Chain' (fun a c => ¬(p a = true ∧ p c = true)) := hch.tail
    have hrep' : ∀ c ∈ cs, p c = true → c = rep :=
      fun c hc => hrep c (List.mem_cons_of_mem c0 hc)
    have ihcs := ih hrep' hch'
    by_cases h0 : p c0
    · have hc0 : c0 = rep := hrep c0 (List.mem_cons_self c0 cs) h0
      have hhead : ∀ c, cs.head? = Option.some c → p c = false := by
        intro c hc
        have := (List.chain'_cons'.mp hch).1 c hc
        by_cases hpc : p c
        · exact absurd ⟨h0, hpc⟩ this
        · simpa using hpc
      constructor
      · simp only [runsAux, h0, if_true, Bool.false_eq_true, if_false]
        rw [ihcs.2 hhead, hc0]
      · intro hc
        have := hc c0 (by simp)
        rw [h0] at this
        exact absurd this (by simp)
    · have h0' : p c0 = false := by simpa using h0
      constructor
      · simp only [runsAux, h0', Bool.false_eq_true, if_false]
        rw [ihcs.1]
      · intro _
        simp only [runsAux, h0', Bool.false_eq_true, if_false]
        rw [ihcs.1]

/-- The head surviving `dropWhile` does not satisfy the predicate. -/
theorem dropWhile_head_not (p : Char → Bool) :
    ∀ (l : List Char) (c : Char), (l.dropWhile p).head? = Option.some c → p c = false := by
  intro l
  induction l with
  | nil => intro c h; simp at h
  | cons c0 cs ih =>
    intro c h
    by_cases h0 : p c0
    · rw [List.dropWhile_cons_of_pos h0] at h
      exact ih c h
    · have h0' : p c0 = false := by simpa using h0
      rw [List.dropWhile_cons_of_neg h0] at h
      simp only [List.head?_cons, Option.some.injEq] at h
      subst h
      exact h0'

/-- `dropWhile` is the identity when the head does not satisfy the predicate. -/
theorem dropWhile_eq_self_of_head (p : Char → Bool) (l : List Char)
    (h : ∀ c, l.head? = Option.some c → p c = false) : l.dropWhile p = l := by
  cases l with
  | nil => rfl
  | cons c0 cs =>
    have h0 := h c0 (by simp)
    rw [List.dropWhile_cons_of_neg (by simp [h0])]

/-- Stripping only removes characters. -/
theorem mem_pyStripL (l : List Char) (c : Char) (h : c ∈ pyStripL l) : c ∈ l := by
  simp only [pyStripL, List.mem_reverse] at h
  have h1 := (List.dropWhile_sublist isPySpace).subset h
  rw [List.mem_reverse] at h1
  exact (List.dropWhile_sublist isPySpace).subset h1

/-- `dropWhile` preserves adjacency invariants. -/
theorem chain_dropWhile (R : Char → Char → Prop) (p : Char → Bool) :
    ∀ (l : List Char), l.Chain' R → (l.dropWhile p).Chain' R := by
  intro l
  induction l with
  | nil => intro _; simp
  | cons c0 cs ih =>
    intro h
    by_cases h0 : p c0
    · rw [List.dropWhile_cons_of_pos h0]
      exact ih h.tail
    · rw [List.dropWhile_cons_of_neg h0]
      exact h

/-- Stripping preserves the no-two-adjacent-matching invariant. -/
theorem chain_pyStripL (p : Char → Bool) (l : List Char)
    (h : l.Chain' (fun a c => ¬(p a = true ∧ p c = true))) :
    (pyStripL l).Chain' (fun a c => ¬(p a = true ∧ p c = true)) := by
  have hsymm : ∀ (m : List Char), m.Chain' (fun a c => ¬(p a = true ∧ p c = true)) →
      m.reverse.Chain' (fun a c => ¬(p a = true ∧ p c = true)) := by
    intro m hm
    rw [List.chain'_reverse]
    exact hm.imp (fun a c hac => fun ⟨x, y⟩ => hac ⟨y, x⟩)
  exact hsymm _ (chain_dropWhile _ isPySpace _ (hsymm _ (chain_dropWhile _ isPySpace _ h)))

/-- A stripped string does not end with whitespace. -/
theorem pyStripL_last (l : List Char) (c : Char)
    (h : (pyStripL l).getLast? = Option.some c) : isPySpace c = false := by
  simp only [pyStripL, List.getLast?_reverse] at h
  exact dropWhile_head_not isPySpace _ c h

/-- A stripped string does not start with whitespace. -/
theorem pyStripL_head (l : List Char) (c : Char)
    (h : (pyStripL l).head? = Option.some c) : isPySpace c = false := by
  simp only [pyStripL, List.head?_reverse] at h
  obtain ⟨t, ht⟩ := List.dropWhile_suffix (l := (l.dropWhile isPySpace).reverse) (p := isPySpace)
  have hne : (l.dropWhile isPySpace).reverse.dropWhile isPySpace ≠ [] := by
    intro hnil
    rw [hnil] at h
    simp at h
  have h2 : ((l.dropWhile isPySpace).reverse).getLast? = Option.some c := by
    rw [← ht, List.getLast?_append_of_ne_nil t hne]
    exact h
  rw [List.getLast?_reverse] at h2
  exact dropWhile_head_not isPySpace l c h2

/-- Stripping is the identity when neither end is whitespace. -/
theorem pyStripL_fixpoint (l : List Char)
    (hh : ∀ c, l.head? = Option.some c → isPySpace c = false)
    (hl : ∀ c, l.getLast? = Option.some c → isPySpace c = false) : pyStripL l = l := by
  unfold pyStripL
  rw [dropWhile_eq_self_of_head isPySpace l hh]
  rw [dropWhile_eq_self_of_head isPySpace l.reverse (by
    intro c hc
    rw [List.head?_reverse] at hc
    exact hl c hc)]
  exact List.reverse_reverse l

/-- Unpacking of the canonical-character predicate. -/
theorem azSpaceB_ranges (c : Char) (h : azSpaceB c = true) :
    (97 ≤ c.toNat ∧ c.toNat ≤ 122) ∨ (48 ≤ c.toNat ∧ c.toNat ≤ 57) ∨ c = ' ' := by
  simp only [azSpaceB, Bool.or_eq_true, Bool.and_eq_true, decide_eq_true_eq] at h
  rcases h with (⟨h1, h2⟩ | ⟨h1, h2⟩) | h1
  · exact Or.inl ⟨h1, h2⟩
  · exact Or.inr (Or.inl ⟨h1, h2⟩)
  · exact Or.inr (Or.inr (eq_of_beq h1))

/-- Canonical characters are NFKD-invariant (they are not in the
decomposition table). -/
theorem nfkdChar_id (c : Char) (h : azSpaceB c = true) : nfkdChar c = [c] := by
  unfold nfkdChar
  cases hf : nfkdTable.find? (fun e => e.1 == c) with
  | none => rfl
  | some e =>
    exfalso
    have hmem := List.mem_of_find?_eq_some hf
    have hbeq : e.1 = c := by simpa using List.find?_some hf
    have htab : ∀ x ∈ nfkdTable, azSpaceB x.1 = false := by decide
    have := htab e hmem
    rw [hbeq, h] at this
    simp at this

/-- Canonical characters are not combining marks. -/
theorem isCombining_false_of_az (c : Char) (h : azSpaceB c = true) :
    isCombining c = false := by
  cases hic : isCombining c with
  | false => rfl
  | true =>
    exfalso
    simp only [isCombining, Bool.and_eq_true, decide_eq_true_eq] at hic
    rcases azSpaceB_ranges c h with ⟨h1, h2⟩ | ⟨h1, h2⟩ | h1
    · omega
    · omega
    · subst h1; exact absurd hic (by decide)

/-- Canonical characters are already lowercase. -/
theorem toLower_id_of_az (c : Char) (h : azSpaceB c = true) : c.toLower = c := by
  unfold Char.toLower
  rcases azSpaceB_ranges c h with ⟨h1, h2⟩ | ⟨h1, h2⟩ | h1
  · rw [if_neg (by omega)]
  · rw [if_neg (by omega)]
  · subst h1; rfl

/-- Canonical characters survive the strict regex class. -/
theorem strictKeep_of_az (c : Char) (h : azSpaceB c = true) : strictKeep c = true := by
  simp only [strictKeep, Bool.or_eq_true, Bool.and_eq_true, decide_eq_true_eq]
  rcases azSpaceB_ranges c h with ⟨h1, h2⟩ | ⟨h1, h2⟩ | h1
  · exact Or.inl (Or.inl ⟨h1, h2⟩)
  · exact Or.inl (Or.inr ⟨h1, h2⟩)
  · subst h1; exact Or.inr (by decide)

/-- A canonical whitespace character is the plain space. -/
theorem space_of_az (c : Char) (h : azSpaceB c = true) (hs : isPySpace c = true) :
    c = ' ' := by
  rcases azSpaceB_ranges c h with ⟨h1, h2⟩ | ⟨h1, h2⟩ | h1
  · exfalso
    simp only [isPySpace, Bool.or_eq_true] at hs
    rcases hs with ((((hx | hx) | hx) | hx) | hx) | hx <;>
      (rw [eq_of_beq hx] at h1; exact absurd h1 (by decide))
  · exfalso
    simp only [isPySpace, Bool.or_eq_true] at hs
    rcases hs with ((((hx | hx) | hx) | hx) | hx) | hx <;>
      (rw [eq_of_beq hx] at h1; exact absurd h1 (by decide))
  · exact h1

/-- `flatMap` is the identity when every character maps to itself. -/
theorem flatMap_id_of_mem (f : Char → List Char) :
    ∀ (l : List Char), (∀ c ∈ l, f c = [c]) → l.flatMap f = l := by
  intro l
  induction l with
  | nil => intro _; rfl
  | cons c cs ih =>
    intro h
    rw [List.flatMap_cons, h c (List.mem_cons_self c cs),
      ih (fun x hx => h x (List.mem_cons_of_mem c hx))]
    rfl

/-- `map` is the identity when every character is fixed. -/
theorem map_id_of_mem (f : Char → Char) :
    ∀ (l : List Char), (∀ c ∈ l, f c = c) → l.map f = l := by
  intro l
  induction l with
  | nil => intro _; rfl
  | cons c cs ih =>
    intro h
    rw [List.map_cons, h c (List.mem_cons_self c cs),
      ih (fun x hx => h x (List.mem_cons_of_mem c hx))]

/-- Claim C7: strict-mode name normalization is idempotent.  The first pass
produces a string of lowercase letters, digits and isolated interior spaces;
every stage of a second pass fixes such strings. -/
theorem c7_strict_normalization_idempotent (s : String) :
    _normalize_prop_name_impl (_normalize_prop_name_impl s) =
      _normalize_prop_name_impl s := by
  by_cases hs : s = ""
  · subst hs; rfl
  · set r := _normalize_prop_name_impl s with hr
    by_cases hre : r = ""
    · rw [hre]; rfl
    · have hdata : r.data = pyStripL (runsToChar isPySpace ' '
          (runsToChar (fun c => !strictKeep c) ' '
            (((nfkdL s.data).filter (fun c => !isCombining c)).map Char.toLower))) := by
        rw [hr]
        unfold _normalize_prop_name_impl
        rw [if_neg hs]
      have hmem : ∀ c ∈ r.data, azSpaceB c = true := by
        intro c hc
        rw [hdata] at hc
        have hc2 := mem_pyStripL _ c hc
        rcases runsAux_mem isPySpace ' ' _ false c hc2 with h1 | ⟨h1, h2⟩
        · subst h1; decide
        · rcases runsAux_mem (fun c => !strictKeep c) ' ' _ false c h1 with h3 | ⟨_, h4⟩
          · subst h3; decide
          · have hk : strictKeep c = true := by simpa using h4
            simp only [strictKeep, Bool.or_eq_true] at hk
            rcases hk with hk | hk
            · simp only [azSpaceB, Bool.or_eq_true]
              exact Or.inl hk
            · rw [hk] at h2; simp at h2
      have hchain : r.data.Chain' (fun a c => ¬(isPySpace a = true ∧ isPySpace c = true)) := by
        rw [hdata]
        exact chain_pyStripL isPySpace _ (runsAux_chain isPySpace ' ' _ false)
      have hhead : ∀ c, r.data.head? = Option.some c → isPySpace c = false := by
        intro c hc
        rw [hdata] at hc
        exact pyStripL_head _ c hc
      have hlast : ∀ c, r.data.getLast? = Option.some c → isPySpace c = false := by
        intro c hc
        rw [hdata] at hc
        exact pyStripL_last _ c hc
      unfold _normalize_prop_name_impl
      rw [if_neg hre]
      show String.mk (pyStripL (runsToChar isPySpace ' '
          (runsToChar (fun c => !strictKeep c) ' '
            (((nfkdL r.data).filter (fun c => !isCombining c)).map Char.toLower)))) = r
      unfold nfkdL
      rw [flatMap_id_of_mem nfkdChar r.data
        (fun c hc => nfkdChar_id c (hmem c hc))]
      rw [List.filter_eq_self.mpr
        (fun c hc => by simp [isCombining_false_of_az c (hmem c hc)])]
      rw [map_id_of_mem Char.toLower r.data
        (fun c hc => toLower_id_of_az c (hmem c hc))]
      unfold runsToChar
      rw [runsAux_id_of_not (fun c => !strictKeep c) ' ' r.data false
        (fun c hc => by simp [strictKeep_of_az c (hmem c hc)])]
      rw [(runsAux_id_of_chain isPySpace ' ' r.data
        (fun c hc hsp => space_of_az c (hmem c hc) hsp) hchain).1]
      rw [pyStripL_fixpoint r.data hhead hlast]
